import Mathlib

/-!
Verification of the WeatherBox update script
(`.github/scripts/update_readme_weather.py`).

Strings are modelled as Lean `String` (a wrapper around `List Char`); the
worker functions operate on `List Char` and carry an `L` suffix.  Python
`str.splitlines` / `str.strip` / `str.rstrip` are modelled for LF line
endings and the ASCII whitespace characters (the README is read in text
mode, which normalises CR/LF; no other whitespace code points occur in the
data handled by the script).  Python regular-expression digits are
modelled as ASCII digits.
-/

/-- Whitespace characters stripped by Python `str.strip` (ASCII subset). -/
def isPySpace (c : Char) : Bool :=
  c == ' ' || c == '\t' || c == '\n' || c == '\r' || c == '\x0b' || c == '\x0c'

/-- Python `str.lstrip` on a character list. -/
def pyTrimLeftL (l : List Char) : List Char := l.dropWhile isPySpace

/-- Python `str.rstrip` on a character list. -/
def pyTrimRightL (l : List Char) : List Char := (pyTrimLeftL l.reverse).reverse

/-- Python `str.strip` on a character list. -/
def pyTrimL (l : List Char) : List Char := pyTrimLeftL (pyTrimRightL l)

/-- Splits at every newline character, keeping a final empty piece when the
input ends with a newline (helper for `pySplitlinesL`). -/
def linesAux : List Char → List Char → List (List Char)
  | [], acc => [acc.reverse]
  | c :: rest, acc =>
    if c = '\n' then acc.reverse :: linesAux rest [] else linesAux rest (c :: acc)

/-- Raw newline split: one piece per newline-separated segment, including a
trailing empty piece for a trailing newline. -/
def splitRawL (s : List Char) : List (List Char) := linesAux s []

/-- Python `str.splitlines` (LF only): the empty string gives no lines, and a
trailing newline does not create a final empty line. -/
def pySplitlinesL (s : List Char) : List (List Char) :=
  if s = [] then []
  else if s.getLast? = some '\n' then (splitRawL s).dropLast
  else splitRawL s

/-- Python `"\n".join` on a list of lines. -/
def joinNL : List (List Char) → List Char
  | [] => []
  | [x] => x
  | x :: y :: rest => x ++ '\n' :: joinNL (y :: rest)

/-- Tests whether `pat` is a prefix of `s` (used to test for a substring
occurrence at a given offset). -/
def leadsList : List Char → List Char → Bool
  | [], _ => true
  | _ :: _, [] => false
  | c :: p, d :: s => c == d && leadsList p s

/-- Index of the first occurrence of `pat` in `s`, if any. -/
def findOcc (pat : List Char) : List Char → Option Nat
  | [] => if leadsList pat [] then some 0 else none
  | c :: rest =>
    if leadsList pat (c :: rest) then some 0
    else (findOcc pat rest).map (· + 1)

/-- Python `pat in s` substring test. -/
def pyInL (pat s : List Char) : Bool := (findOcc pat s).isSome

/-- Index of the first occurrence of `pat` in `s` at position `k` or later. -/
def findOccFrom (pat : List Char) (k : Nat) (s : List Char) : Option Nat :=
  (findOcc pat (s.drop k)).map (· + k)

/-- Index of the last occurrence of `pat` in `s`, if any. -/
def findLastOcc (pat : List Char) : List Char → Option Nat
  | [] => if leadsList pat [] then some 0 else none
  | c :: rest =>
    match findLastOcc pat rest with
    | some i => some (i + 1)
    | none => if leadsList pat (c :: rest) then some 0 else none

/-- Number of positions of `s` at which `pat` occurs as a substring. -/
def countOccur (pat s : List Char) : Nat :=
  ((List.range (s.length + 1)).filter (fun i => leadsList pat (s.drop i))).length

/-- Python `str.lower`, modelled character-wise (all characters appearing in
the script's keyword lists are ASCII). -/
def pyLowerL (l : List Char) : List Char := l.map Char.toLower

/-- Calendar date, mirroring Python `datetime.date` (always used with valid
year/month/day produced by `fromisoformatL` or passed in as `today`). -/
structure PyDate where
  year : Nat
  month : Nat
  day : Nat
deriving DecidableEq

/-- Gregorian leap-year test, as in Python `calendar`/`datetime`. -/
def isLeapYear (y : Nat) : Bool :=
  y % 4 == 0 && (y % 100 != 0 || y % 400 == 0)

/-- Number of days in a month (months are 1-based). -/
def daysInMonth (y m : Nat) : Nat :=
  if m == 2 then (if isLeapYear y then 29 else 28)
  else if m == 4 || m == 6 || m == 9 || m == 11 then 30
  else 31

/-- Validity condition enforced by `datetime.date` (year 1..9999). -/
def validDate (y m d : Nat) : Prop :=
  1 ≤ y ∧ y ≤ 9999 ∧ 1 ≤ m ∧ m ≤ 12 ∧ 1 ≤ d ∧ d ≤ daysInMonth y m

instance (y m d : Nat) : Decidable (validDate y m d) := by
  unfold validDate; infer_instance

/-- Python `date` ordering: lexicographic on (year, month, day). -/
def dateLe (a b : PyDate) : Prop :=
  a.year < b.year ∨
    (a.year = b.year ∧ (a.month < b.month ∨ (a.month = b.month ∧ a.day ≤ b.day)))

instance (a b : PyDate) : Decidable (dateLe a b) := by
  unfold dateLe; infer_instance

/-- The day before `d`; `none` models the `OverflowError` raised by
`datetime` below `date.min` (year 1, January 1). -/
def predDate (d : PyDate) : Option PyDate :=
  if 1 < d.day then some ⟨d.year, d.month, d.day - 1⟩
  else if 1 < d.month then some ⟨d.year, d.month - 1, daysInMonth d.year (d.month - 1)⟩
  else if 1 < d.year then some ⟨d.year - 1, 12, 31⟩
  else none

/-- Python `d - datetime.timedelta(days=n)`. -/
def subDays (d : PyDate) : Nat → Option PyDate
  | 0 => some d
  | n + 1 => (predDate d).bind (fun d2 => subDays d2 n)

/-- Numeric value of an ASCII digit. -/
def digitVal (c : Char) : Nat := c.toNat - '0'.toNat

/-- Python `datetime.date.fromisoformat`, modelled for the dashed
`YYYY-MM-DD` shape guaranteed by `LINE_RE` (the only shape the script feeds
to it); `none` models the `ValueError` raised on an invalid calendar date. -/
def fromisoformatL (cs : List Char) : Option PyDate :=
  match cs with
  | [y1, y2, y3, y4, '-', m1, m2, '-', d1, d2] =>
    if y1.isDigit && y2.isDigit && y3.isDigit && y4.isDigit &&
        m1.isDigit && m2.isDigit && d1.isDigit && d2.isDigit then
      let y := ((digitVal y1 * 10 + digitVal y2) * 10 + digitVal y3) * 10 + digitVal y4
      let m := digitVal m1 * 10 + digitVal m2
      let d := digitVal d1 * 10 + digitVal d2
      if validDate y m d then some ⟨y, m, d⟩ else none
    else none
  | _ => none

/-- KEEP_DAYS constant of the script. -/
def KEEP_DAYS : Nat := 10

/-- Matching against `LINE_RE`, the pattern
`^- (\d{4}-\d{2}-\d{2}) (\d{2}:\d{2}) UTC — (.*)$` applied to a single line:
returns the three captured groups (date text, time text, entry text). -/
def LINE_REm (line : List Char) : Option (List Char × List Char × List Char) :=
  match line with
  | c0 :: c1 :: y1 :: y2 :: y3 :: y4 :: c6 :: m1 :: m2 :: c9 :: d1 :: d2 ::
      c12 :: h1 :: h2 :: c15 :: n1 :: n2 :: c18 :: c19 :: c20 :: c21 :: c22 :: c23 :: c24 :: txt =>
    if c0 = '-' ∧ c1 = ' ' ∧ c6 = '-' ∧ c9 = '-' ∧ c12 = ' ' ∧ c15 = ':' ∧ c18 = ' ' ∧
        c19 = 'U' ∧ c20 = 'T' ∧ c21 = 'C' ∧ c22 = ' ' ∧ c23 = '—' ∧ c24 = ' ' ∧
        (y1.isDigit && y2.isDigit && y3.isDigit && y4.isDigit &&
          m1.isDigit && m2.isDigit && d1.isDigit && d2.isDigit &&
          h1.isDigit && h2.isDigit && n1.isDigit && n2.isDigit) = true then
      some ([y1, y2, y3, y4, '-', m1, m2, '-', d1, d2], [h1, h2, ':', n1, n2], txt)
    else none
  | _ => none

/-- The header line `### Dublin weather (last {KEEP_DAYS} days)`. -/
def headerL : List Char := ("### Dublin weather (last " ++ toString KEEP_DAYS ++ " days)").data

/-- The per-line loop of `build_new_block` (lines 291..306 of the script):
rstrip each line, drop lines equal (after strip) to the banner line, keep
non-matching non-blank lines, parse dated lines and keep those at or after
the cutoff.  `none` models the `ValueError` escaping from
`date.fromisoformat` on a matching line holding an invalid calendar date. -/
def keptLinesL (cutoff : PyDate) (banner : List Char) : List (List Char) → Option (List (List Char))
  | [] => some []
  | l :: ls =>
    let line := pyTrimRightL l
    if pyTrimL line = pyTrimL banner then keptLinesL cutoff banner ls
    else
      match LINE_REm line with
      | none =>
        if pyTrimL line ≠ [] then (keptLinesL cutoff banner ls).map (line :: ·)
        else keptLinesL cutoff banner ls
      | some (ds, _, _) =>
        match fromisoformatL ds with
        | none => none
        | some d =>
          if dateLe cutoff d then (keptLinesL cutoff banner ls).map (line :: ·)
          else keptLinesL cutoff banner ls

/-- Lines 288..316 of the script (`build_new_block`) on character lists. -/
def buildL (existing_block banner_line new_line : List Char) (now_date : PyDate) :
    Option (List Char) :=
  match subDays now_date (KEEP_DAYS - 1) with
  | none => none
  | some cutoff =>
    match keptLinesL cutoff banner_line (pySplitlinesL existing_block) with
    | none => none
    | some kept0 =>
      let kept := kept0.filter (fun ln => ln ≠ headerL)
      let block := [banner_line, [], headerL, new_line]
      let rest := kept.filter (fun ln => ln ≠ new_line ∧ pyTrimL ln ≠ headerL)
      let out := pyTrimL (joinNL (block ++ rest)) ++ ['\n']
      some (pyTrimL out)

/-- The script's `build_new_block` at `String` level. -/
def build_new_block (existing_block banner_line new_line : String) (now_date : PyDate) :
    Option String :=
  (buildL existing_block.data banner_line.data new_line.data now_date).map (fun l => ⟨l⟩)

/-- The script's `classify_weather`: case-insensitive keyword search with a
fixed priority order, defaulting to `"clear"`. -/
def classify_weather (weather_text : String) : String :=
  let t := pyLowerL weather_text.data
  if pyInL "thunder".data t || pyInL "storm".data t then "thunder"
  else if pyInL "snow".data t || pyInL "sleet".data t || pyInL "blizzard".data t then "snow"
  else if pyInL "rain".data t || pyInL "drizzle".data t || pyInL "shower".data t then "rain"
  else if pyInL "fog".data t || pyInL "mist".data t || pyInL "haze".data t then "fog"
  else if pyInL "wind".data t then "wind"
  else if pyInL "overcast".data t || pyInL "cloud".data t then "cloud"
  else "clear"

/-- All keywords inspected by `classify_weather`. -/
def weather_keywords : List String :=
  ["thunder", "storm", "snow", "sleet", "blizzard", "rain", "drizzle", "shower",
   "fog", "mist", "haze", "wind", "overcast", "cloud"]

/-- The start marker. -/
def START : String := "<!-- DUBLIN_WEATHER:START -->"

/-- The end marker. -/
def END : String := "<!-- DUBLIN_WEATHER:END -->"

/-- Character list of the start marker. -/
def Sd : List Char := START.data

/-- Character list of the end marker. -/
def Ed : List Char := END.data

/-- Lines 279..285 of the script (`extract_block`): `none` models the
`SystemExit` raised when either marker is absent.  The search pattern is
`START\n(.*)\nEND` with DOTALL: a whole-pattern match exists exactly when
the first occurrence of `START\n` is followed by a later occurrence of
`\nEND` (an occurrence of `\nEND` after any later `START\n` also lies after
the first one, so trying later start positions can never succeed when the
first fails), and the greedy group extends to the last occurrence of
`\nEND`. -/
def extract_blockL (readme : List Char) : Option (List Char) :=
  if pyInL Sd readme && pyInL Ed readme then
    some
      (match findOcc (Sd ++ ['\n']) readme with
      | none => []
      | some i =>
        match findLastOcc ('\n' :: Ed) (readme.drop (i + (Sd ++ ['\n']).length)) with
        | none => []
        | some j => pyTrimL ((readme.drop (i + (Sd ++ ['\n']).length)).take j))
  else none

/-- The script's `extract_block` at `String` level. -/
def extract_block (readme : String) : Option String :=
  (extract_blockL readme.data).map (fun l => ⟨l⟩)

/-- One piece of a parsed `re.sub` replacement template: a literal character
or a reference to group 0 (the whole match). -/
inductive TmplPiece where
  | lit (c : Char)
  | grp0
deriving DecidableEq

/-- Parsing of a `re.sub` replacement template, as performed by Python's
`re` module before substituting: backslash escapes are interpreted, `\g<0>`
references the whole match, and `none` models the errors Python raises
(bad escapes, a trailing backslash, and — conservatively — numeric escapes:
group references above 0 are errors for this group-free pattern, and octal
escapes do not occur in the script's data). -/
def parseTemplate : List Char → Option (List TmplPiece)
  | [] => some []
  | c :: rest =>
    if c = '\\' then
      match rest with
      | [] => none
      | c2 :: rest2 =>
        if c2 = '\\' then (parseTemplate rest2).map (TmplPiece.lit '\\' :: ·)
        else if c2 = 'n' then (parseTemplate rest2).map (TmplPiece.lit '\n' :: ·)
        else if c2 = 't' then (parseTemplate rest2).map (TmplPiece.lit '\t' :: ·)
        else if c2 = 'r' then (parseTemplate rest2).map (TmplPiece.lit '\r' :: ·)
        else if c2 = 'a' then (parseTemplate rest2).map (TmplPiece.lit '\x07' :: ·)
        else if c2 = 'b' then (parseTemplate rest2).map (TmplPiece.lit '\x08' :: ·)
        else if c2 = 'f' then (parseTemplate rest2).map (TmplPiece.lit '\x0c' :: ·)
        else if c2 = 'v' then (parseTemplate rest2).map (TmplPiece.lit '\x0b' :: ·)
        else if c2 = 'g' then
          match rest2 with
          | a1 :: a2 :: a3 :: rest3 =>
            if a1 = '<' ∧ a2 = '0' ∧ a3 = '>' then
              (parseTemplate rest3).map (TmplPiece.grp0 :: ·)
            else none
          | _ => none
        else none
    else (parseTemplate rest).map (TmplPiece.lit c :: ·)

/-- Expansion of a parsed template against the matched text. -/
def expandPieces (ps : List TmplPiece) (matched : List Char) : List Char :=
  (ps.map (fun p => match p with | TmplPiece.lit c => [c] | TmplPiece.grp0 => matched)).flatten

/-- Helper for the termination of `subAllAux`. -/
theorem findOcc_le_length (pat : List Char) (hp : pat ≠ []) :
    ∀ s i, findOcc pat s = some i → i < s.length := by
  intro s
  induction s with
  | nil =>
    intro i h
    cases pat with
    | nil => exact absurd rfl hp
    | cons c p => simp [findOcc, leadsList] at h
  | cons c rest ih =>
    intro i h
    unfold findOcc at h
    by_cases hl : leadsList pat (c :: rest) = true
    · simp [hl] at h
      simp [List.length_cons]
      omega
    · simp [hl] at h
      obtain ⟨j, hj, rfl⟩ := h
      have := ih j hj
      simp
      omega

/-- Lines 349..351 of the script: `pattern.sub(replacement, original)` for
the pattern `START.*?END` (DOTALL).  Matches begin at occurrences of the
literal `START`; at such a position the lazy `.*?` extends to the first
following `END` (when the first `START` has no following `END`, later
`START` positions cannot have one either, so there is no match at all);
scanning resumes after the replaced region.  The `fuel` argument only
bounds the recursion: every substitution step consumes at least one
character, so `s.length + 1` units never run out. -/
def subAllFuel (ps : List TmplPiece) : Nat → List Char → List Char
  | 0, s => s
  | fuel + 1, s =>
    match findOcc Sd s with
    | none => s
    | some i =>
      match findOccFrom Ed (i + Sd.length) s with
      | none => s
      | some j =>
        s.take i ++ expandPieces ps ((s.drop i).take (j + Ed.length - i)) ++
          subAllFuel ps fuel (s.drop (j + Ed.length))

/-- Substitution of every `START.*?END` match in `s` by the expanded
replacement template. -/
def subAllAux (ps : List TmplPiece) (s : List Char) : List Char :=
  subAllFuel ps (s.length + 1) s

/-- Lines 349..358 of the script: building
`START + "\n" + new_block + "\n" + END` and substituting it for every
`START.*?END` region; `none` models a replacement-template error raised by
`re.sub`. -/
def update_region (original new_block : String) : Option String :=
  let replacement := START ++ "\n" ++ new_block ++ "\n" ++ END
  (parseTemplate replacement.data).map (fun ps => (⟨subAllAux ps original.data⟩ : String))

/-- The banner reference line (line 344 of the script). -/
def banner_line : String :=
  "<img src=\"assets/dublin-weather.svg\" width=\"100%\" alt=\"Dublin weather banner\" />"

/-- Lines 327..334 of the script: the weather text, rendered log entry and
theme.  `fetched = none` models `fetch_weather()` raising (all providers
failed); `fetched = some w` models a successful fetch returning `w`. -/
def weather_entry_theme (fetched : Option String) (now_stamp : String) :
    String × String × String :=
  match fetched with
  | some w => (w, "- " ++ now_stamp ++ " — " ++ w, classify_weather w)
  | none =>
    ("⚠️ Weather fetch unavailable.",
     "- " ++ now_stamp ++ " — " ++ "⚠️ Weather fetch unavailable.", "cloud")

/-- The script's `update_readme` restricted to its effect on the document
(the banner image write touches only the SVG file, not the document): reads
`original`, computes entry and theme, extracts the existing block, builds
the new block and substitutes it; returns the updated document and the
changed flag (`updated != original`), which the script uses to decide
whether to write.  `none` models a run that terminates with an error before
writing the document. -/
def update_readme (fetched : Option String) (now_stamp : String) (now_date : PyDate)
    (original : String) : Option (String × Bool) :=
  let wet := weather_entry_theme fetched now_stamp
  match extract_block original with
  | none => none
  | some existing_block =>
    match build_new_block existing_block banner_line wet.2.1 now_date with
    | none => none
    | some new_block =>
      match update_region original new_block with
      | none => none
      | some updated => some (updated, updated != original)

/-- The merge-and-update pipeline with the banner line and entry line as
parameters: extract the existing block, `build_new_block`, replace the
marker-delimited region, and report whether the document changed. -/
def pipelineOnce (doc banner entry : String) (today : PyDate) : Option (String × Bool) :=
  match extract_block doc with
  | none => none
  | some existing_block =>
    match build_new_block existing_block banner entry today with
    | none => none
    | some new_block =>
      match update_region doc new_block with
      | none => none
      | some updated => some (updated, updated != doc)

/-- The script's `escape_svg_text` helper for `replace` of one character by
a string (Python `str.replace` with a single-character pattern). -/
def replaceAllChar (c : Char) (r : List Char) (s : List Char) : List Char :=
  (s.map (fun d => if d == c then r else [d])).flatten

/-- The script's `escape_svg_text`: the five chained `str.replace` calls. -/
def escape_svg_text (s : String) : String :=
  let apos : Char := Char.ofNat 39
  ⟨replaceAllChar apos "&#39;".data
    (replaceAllChar '"' "&quot;".data
      (replaceAllChar '>' "&gt;".data
        (replaceAllChar '<' "&lt;".data
          (replaceAllChar '&' "&amp;".data s.data))))⟩

/-- The `bg` dictionary lookup `bg.get(theme, bg["cloud"])` of
`write_weather_svg`: gradient colour pair per theme, defaulting to the
cloud pair. -/
def bg_get (theme : String) : String × String :=
  if theme = "clear" then ("#0b1020", "#1b3a7a")
  else if theme = "cloud" then ("#0f172a", "#334155")
  else if theme = "rain" then ("#0b1020", "#1f3b6d")
  else if theme = "wind" then ("#071018", "#123a4a")
  else if theme = "fog" then ("#0b1020", "#2b2b2b")
  else if theme = "snow" then ("#0b1020", "#2b4c7e")
  else if theme = "thunder" then ("#090514", "#3b1a6b")
  else ("#0f172a", "#334155")

/-- The CSS block of `write_weather_svg` (braces written as escapes). -/
def svg_css : String := "
  <style>
    .title \x7b font: 44px system-ui, -apple-system, Segoe UI, Roboto, Arial; fill: #fff; \x7d
    .sub   \x7b font: 24px system-ui, -apple-system, Segoe UI, Roboto, Arial; fill: #dbeafe; opacity: .95; \x7d
    .card  \x7b fill: rgba(0,0,0,0.28); \x7d

    /* Smooth infinite motion across entire banner */
    @keyframes scrollDown \x7b from \x7b transform: translateY(-320px); \x7d to \x7b transform: translateY(0px); \x7d \x7d
    @keyframes scrollRight\x7b from \x7b transform: translateX(-600px); \x7d to \x7b transform: translateX(0px); \x7d \x7d
    @keyframes scrollLeft \x7b from \x7b transform: translateX(0px); \x7d to \x7b transform: translateX(-600px); \x7d \x7d
    @keyframes driftDiag  \x7b from \x7b transform: translate(-180px,-140px); \x7d to \x7b transform: translate(180px,140px); \x7d \x7d

    /* Thunder flash */
    @keyframes flash \x7b 0%,90%,100% \x7b opacity: 0; \x7d 91%,93% \x7b opacity: .65; \x7d 94% \x7b opacity: .1; \x7d 95% \x7b opacity: .45; \x7d \x7d

    .layerSlow  \x7b opacity: .22; \x7d
    .layerMed   \x7b opacity: .30; \x7d
    .layerFast  \x7b opacity: .40; \x7d

    .rainSlow \x7b animation: scrollDown 2.6s linear infinite; \x7d
    .rainMed  \x7b animation: scrollDown 1.7s linear infinite; \x7d
    .rainFast \x7b animation: scrollDown 1.1s linear infinite; \x7d

    .windSlow \x7b animation: scrollRight 7.2s linear infinite; \x7d
    .windMed  \x7b animation: scrollRight 4.8s linear infinite; \x7d
    .windFast \x7b animation: scrollRight 3.2s linear infinite; \x7d

    .fogSlow  \x7b animation: scrollLeft 18s ease-in-out infinite; \x7d
    .fogMed   \x7b animation: scrollLeft 12s ease-in-out infinite; \x7d
    .fogFast  \x7b animation: scrollLeft 8s  ease-in-out infinite; \x7d

    .snowSlow \x7b animation: driftDiag 10s linear infinite; \x7d
    .snowMed  \x7b animation: driftDiag 7s  linear infinite; \x7d
    .snowFast \x7b animation: driftDiag 5s  linear infinite; \x7d

    .flash \x7b animation: flash 4.8s infinite; \x7d
  </style>
"

/-- The `rain_tile` helper of `write_weather_svg`: a tiled group of rain
lines (`x - 8` never underflows: every call site keeps `x` at 10 or more,
so Nat subtraction agrees with Python). -/
def rain_tile (x_offset y_offset step_x step_y count_x count_y : Nat) : String :=
  String.intercalate "\n"
    (((List.range count_x).map (fun ix =>
      (List.range count_y).map (fun iy =>
        let x := x_offset + ix * step_x
        let y := y_offset + iy * step_y
        "<line x1=\"" ++ toString x ++ "\" y1=\"" ++ toString y ++ "\" x2=\"" ++
          toString (x - 8) ++ "\" y2=\"" ++ toString (y + 22) ++
          "\" stroke=\"#bcd6ff\" stroke-width=\"2\" />"))).flatten)

/-- Loop body of the `snow_tile` helper. -/
def snowAux : Nat → Nat → Nat → Nat → List String
  | 0, _, _, _ => []
  | n + 1, x, y, i =>
    let x2 := (x * 73 + 41) % 1200
    let y2 := (y * 91 + 19) % 320
    let r := 1 + ((x2 + y2 + i) % 3)
    ("<circle cx=\"" ++ toString x2 ++ "\" cy=\"" ++ toString y2 ++ "\" r=\"" ++
      toString r ++ "\" />") :: snowAux n x2 y2 (i + 1)

/-- The `snow_tile` helper of `write_weather_svg`. -/
def snow_tile (count seed_x seed_y : Nat) : String :=
  String.intercalate "\n" (snowAux count seed_x seed_y 0)

/-- The `wind_paths` constant of `write_weather_svg`. -/
def wind_paths : String := "
    <path d=\"M 60 90 C 180 40, 300 140, 420 90 S 660 140, 780 90 S 1020 140, 1140 90\" />
    <path d=\"M 20 170 C 160 120, 280 220, 420 170 S 680 220, 820 170 S 1080 220, 1220 170\" />
    <path d=\"M 80 250 C 220 200, 340 300, 480 250 S 740 300, 880 250 S 1140 300, 1280 250\" />
"

/-- The `fog_bands` constant of `write_weather_svg`. -/
def fog_bands : String := "
    <path d=\"M -200 110 H 1400\" />
    <path d=\"M -260 170 H 1360\" />
    <path d=\"M -220 230 H 1380\" />
"

/-- The `clouds` constant of `write_weather_svg`. -/
def svg_clouds : String := "
    <ellipse cx=\"260\" cy=\"150\" rx=\"140\" ry=\"70\"/>
    <ellipse cx=\"360\" cy=\"140\" rx=\"120\" ry=\"60\"/>
    <ellipse cx=\"980\" cy=\"170\" rx=\"160\" ry=\"80\"/>
    <ellipse cx=\"1080\" cy=\"160\" rx=\"130\" ry=\"65\"/>
"

/-- The `sun` constant of `write_weather_svg`. -/
def svg_sun : String :=
  "<g opacity=\"0.35\" fill=\"#ffd36a\"><circle cx=\"1030\" cy=\"120\" r=\"55\"/></g>"

/-- The overlay selection of `write_weather_svg` (lines 213..250): the
if/elif chain on the theme, with the `else` branch giving the cloud
overlay. -/
def overlay_for (theme : String) : String :=
  if theme = "rain" then
    "\n  <g class=\"layerSlow rainSlow\">" ++ rain_tile 30 10 75 95 20 6 ++
      "</g>\n  <g class=\"layerMed rainMed\">" ++ rain_tile 60 40 85 90 18 6 ++
      "</g>\n  <g class=\"layerFast rainFast\">" ++ rain_tile 10 20 65 100 22 6 ++ "</g>\n"
  else if theme = "wind" then
    "\n  <g class=\"layerSlow windSlow\" fill=\"none\" stroke=\"#bff3ff\" stroke-width=\"3\" stroke-linecap=\"round\">" ++
      wind_paths ++
      "</g>\n  <g class=\"layerMed windMed\"  fill=\"none\" stroke=\"#bff3ff\" stroke-width=\"2.5\" stroke-linecap=\"round\">" ++
      wind_paths ++
      "</g>\n  <g class=\"layerFast windFast\" fill=\"none\" stroke=\"#bff3ff\" stroke-width=\"2\" stroke-linecap=\"round\">" ++
      wind_paths ++ "</g>\n"
  else if theme = "fog" then
    "\n  <g class=\"layerSlow fogSlow\" fill=\"none\" stroke=\"#dbeafe\" stroke-width=\"14\" stroke-linecap=\"round\">" ++
      fog_bands ++
      "</g>\n  <g class=\"layerMed fogMed\"   fill=\"none\" stroke=\"#dbeafe\" stroke-width=\"10\" stroke-linecap=\"round\">" ++
      fog_bands ++
      "</g>\n  <g class=\"layerFast fogFast\" fill=\"none\" stroke=\"#dbeafe\" stroke-width=\"8\"  stroke-linecap=\"round\">" ++
      fog_bands ++ "</g>\n"
  else if theme = "snow" then
    "\n  <g class=\"layerSlow snowSlow\" fill=\"#eaf2ff\">" ++ snow_tile 160 17 23 ++
      "</g>\n  <g class=\"layerMed snowMed\"   fill=\"#eaf2ff\">" ++ snow_tile 140 29 31 ++
      "</g>\n  <g class=\"layerFast snowFast\" fill=\"#eaf2ff\">" ++ snow_tile 120 41 37 ++ "</g>\n"
  else if theme = "thunder" then
    "
  <g class=\"flash\">
    <rect width=\"1200\" height=\"320\" fill=\"#ffffff\"/>
  </g>
  <g opacity=\"0.55\">
    <polygon points=\"620,70 560,190 635,190 590,310 705,165 635,165\" fill=\"#f7d34a\"/>
  </g>
"
  else if theme = "clear" then svg_sun
  else "<g opacity=\"0.35\" fill=\"#e2e8f0\">" ++ svg_clouds ++ "</g>"

/-- The SVG document assembled by `write_weather_svg` (the function's pure
content; the file write itself is an effect outside the document model). -/
def write_weather_svg_content (theme title subtitle : String) : String :=
  let c := bg_get theme
  "<svg xmlns=\"http://www.w3.org/2000/svg\" width=\"1200\" height=\"320\" viewBox=\"0 0 1200 320\">\n  <defs>\n    <linearGradient id=\"g\" x1=\"0\" y1=\"0\" x2=\"1\" y2=\"1\">\n      <stop offset=\"0\" stop-color=\"" ++
    c.1 ++ "\"/>\n      <stop offset=\"1\" stop-color=\"" ++ c.2 ++
    "\"/>\n    </linearGradient>\n    <filter id=\"shadow\" x=\"-20%\" y=\"-20%\" width=\"140%\" height=\"140%\">\n      <feDropShadow dx=\"0\" dy=\"6\" stdDeviation=\"10\" flood-color=\"#000\" flood-opacity=\"0.35\"/>\n    </filter>\n  </defs>\n" ++
    svg_css ++
    "\n\n  <rect width=\"1200\" height=\"320\" rx=\"22\" fill=\"url(#g)\"/>\n  " ++
    overlay_for theme ++
    "\n\n  <g filter=\"url(#shadow)\">\n    <rect x=\"56\" y=\"60\" width=\"1088\" height=\"200\" rx=\"18\" class=\"card\"/>\n    <text x=\"96\" y=\"135\" class=\"title\">" ++
    escape_svg_text title ++
    "</text>\n    <text x=\"96\" y=\"195\" class=\"sub\">" ++
    escape_svg_text subtitle ++ "</text>\n  </g>\n</svg>\n"

-- ==== auxiliary definitions used by the verification ====

/-- A line is blank when all of its characters are whitespace. -/
def blankL (l : List Char) : Bool := l.all isPySpace

/-- Replaces the first element of a line list. -/
def mapFirst (f : List Char → List Char) : List (List Char) → List (List Char)
  | [] => []
  | x :: xs => f x :: xs

/-- Replaces the last element of a line list. -/
def mapLast (f : List Char → List Char) (L : List (List Char)) : List (List Char) :=
  (mapFirst f L.reverse).reverse

/-- Drops trailing blank lines. -/
def rdropBlankL (L : List (List Char)) : List (List Char) :=
  (L.reverse.dropWhile blankL).reverse

/-- The line list of the stripped join: trailing blank lines dropped, the
last surviving line right-trimmed, leading blank lines dropped, the first
surviving line left-trimmed. -/
def stripLines (L : List (List Char)) : List (List Char) :=
  mapFirst pyTrimLeftL (List.dropWhile blankL (mapLast pyTrimRightL (rdropBlankL L)))

/-- Invariant satisfied by every surviving line of the existing block, as
assembled by `build_new_block` behind the banner/header/new-entry prefix. -/
def restLineInv (cutoff : PyDate) (b e : List Char) (l : List Char) : Prop :=
  pyTrimRightL l = l ∧ blankL l = false ∧ '\n' ∉ l ∧
  pyTrimL l ≠ pyTrimL b ∧ l ≠ headerL ∧ pyTrimL l ≠ headerL ∧ l ≠ e ∧
  (∀ ds ts txt, LINE_REm l = some (ds, ts, txt) →
    ∃ dd, fromisoformatL ds = some dd ∧ dateLe cutoff dd)

/-- Occurrence of `pat` at offset `i` of `s`. -/
def occursAt (pat s : List Char) (i : Nat) : Prop := leadsList pat (s.drop i) = true

/-- Containment of a character segment. -/
def SegIn (l s : List Char) : Prop := ∃ u w, s = u ++ l ++ w

-- ==== trims ====

theorem trimLeft_eq_nil_iff (l : List Char) : pyTrimLeftL l = [] ↔ blankL l = true := by
  simp [pyTrimLeftL, blankL, List.dropWhile_eq_nil_iff, List.all_eq_true]

theorem blankL_reverse (l : List Char) : blankL l.reverse = blankL l := by
  simp [blankL, List.all_eq_true]

theorem trimRight_eq_nil_iff (l : List Char) : pyTrimRightL l = [] ↔ blankL l = true := by
  rw [pyTrimRightL, List.reverse_eq_nil_iff, trimLeft_eq_nil_iff, blankL_reverse]

theorem trimLeft_decomp (l : List Char) : l = l.takeWhile isPySpace ++ pyTrimLeftL l :=
  (List.takeWhile_append_dropWhile isPySpace l).symm

theorem trimRight_decomp (l : List Char) :
    l = pyTrimRightL l ++ (l.reverse.takeWhile isPySpace).reverse := by
  conv_lhs => rw [← List.reverse_reverse l, ← List.takeWhile_append_dropWhile isPySpace l.reverse]
  rw [List.reverse_append]
  rfl

theorem sublist_trimRight (l : List Char) : (pyTrimRightL l).Sublist l := by
  have h := (List.dropWhile_sublist (l := l.reverse) isPySpace).reverse
  rw [List.reverse_reverse] at h
  exact h

theorem sublist_trimLeft (l : List Char) : (pyTrimLeftL l).Sublist l :=
  List.dropWhile_sublist isPySpace

theorem blankL_of_sublist {l m : List Char} (hs : l.Sublist m) (h : blankL m = true) :
    blankL l = true := by
  rw [blankL, List.all_eq_true] at *
  exact fun x hx => h x (hs.mem hx)

theorem trim_eq_nil_iff (l : List Char) : pyTrimL l = [] ↔ blankL l = true := by
  rw [pyTrimL, trimLeft_eq_nil_iff]
  constructor
  · intro h
    rw [blankL, List.all_eq_true]
    intro x hx
    conv at hx => rw [trimRight_decomp l]
    rcases List.mem_append.mp hx with hx | hx
    · rw [blankL, List.all_eq_true] at h
      exact h x hx
    · exact List.mem_takeWhile_imp (List.mem_reverse.mp hx)
  · exact blankL_of_sublist (sublist_trimRight l)

theorem trimLeft_append (u v : List Char) :
    pyTrimLeftL (u ++ v) =
      if blankL u = true then pyTrimLeftL v else pyTrimLeftL u ++ v := by
  rw [pyTrimLeftL, List.dropWhile_append]
  by_cases h : blankL u = true
  · rw [if_pos h, if_pos]
    · rfl
    · rw [List.isEmpty_iff]
      exact (trimLeft_eq_nil_iff u).mpr h
  · rw [if_neg h, if_neg]
    · rfl
    · rw [List.isEmpty_iff]
      intro hc
      exact h ((trimLeft_eq_nil_iff u).mp hc)

theorem trimRight_append (u v : List Char) :
    pyTrimRightL (u ++ v) =
      if blankL v = true then pyTrimRightL u else u ++ pyTrimRightL v := by
  rw [pyTrimRightL, List.reverse_append, trimLeft_append]
  rw [blankL_reverse]
  by_cases h : blankL v = true
  · rw [if_pos h, if_pos h]
    rfl
  · rw [if_neg h, if_neg h, List.reverse_append, List.reverse_reverse]
    rfl

theorem trimLeft_idem (l : List Char) : pyTrimLeftL (pyTrimLeftL l) = pyTrimLeftL l := by
  rw [pyTrimLeftL, pyTrimLeftL]
  cases hd : List.dropWhile isPySpace l with
  | nil => rfl
  | cons c rest =>
    have hh := List.head?_dropWhile_not isPySpace l
    rw [hd] at hh
    simp only [List.head?_cons] at hh
    rw [List.dropWhile_cons, if_neg (by simp [hh])]

theorem trimRight_idem (l : List Char) : pyTrimRightL (pyTrimRightL l) = pyTrimRightL l := by
  rw [pyTrimRightL, pyTrimRightL, List.reverse_reverse, trimLeft_idem]

theorem trimRight_singleton (c : Char) :
    pyTrimRightL [c] = if isPySpace c then [] else [c] := by
  rw [pyTrimRightL]
  by_cases h : isPySpace c
  · simp [pyTrimLeftL, h]
  · simp [pyTrimLeftL, h]

theorem trimRight_cons (c : Char) (x : List Char) :
    pyTrimRightL (c :: x) =
      if blankL x = true then (if isPySpace c then [] else [c]) else c :: pyTrimRightL x := by
  have h := trimRight_append [c] x
  simp only [List.singleton_append] at h
  rw [h, trimRight_singleton]

theorem trimLeft_cons (c : Char) (x : List Char) :
    pyTrimLeftL (c :: x) = if isPySpace c then pyTrimLeftL x else c :: x := by
  rw [pyTrimLeftL, List.dropWhile_cons]
  rfl

theorem trimRight_trimLeft_comm (l : List Char) :
    pyTrimRightL (pyTrimLeftL l) = pyTrimLeftL (pyTrimRightL l) := by
  induction l with
  | nil => rfl
  | cons c rest ih =>
    rw [trimLeft_cons, trimRight_cons]
    by_cases hc : isPySpace c
    · rw [if_pos hc]
      by_cases hr : blankL rest = true
      · rw [if_pos hr]
        have h1 : pyTrimLeftL rest = [] := (trimLeft_eq_nil_iff rest).mpr hr
        rw [h1, if_pos hc]
        rfl
      · rw [if_neg hr, ih, trimLeft_cons, if_pos hc]
    · rw [if_neg hc]
      by_cases hr : blankL rest = true
      · rw [if_pos hr, if_neg hc]
        have h1 : pyTrimRightL rest = [] := (trimRight_eq_nil_iff rest).mpr hr
        rw [trimRight_cons, if_pos hr, if_neg hc]
        rw [trimLeft_cons, if_neg hc]
      · rw [if_neg hr, trimRight_cons, if_neg hr, trimLeft_cons, if_neg hc]

theorem trim_trimRight (l : List Char) : pyTrimL (pyTrimRightL l) = pyTrimL l := by
  rw [pyTrimL, pyTrimL, trimRight_idem]

theorem trim_trimLeft (l : List Char) : pyTrimL (pyTrimLeftL l) = pyTrimL l := by
  rw [pyTrimL, pyTrimL, trimRight_trimLeft_comm, trimLeft_idem]

theorem trim_idem (l : List Char) : pyTrimL (pyTrimL l) = pyTrimL l := by
  have h : pyTrimL (pyTrimL l) = pyTrimL (pyTrimLeftL (pyTrimRightL l)) := rfl
  rw [h, trim_trimLeft, trim_trimRight]

theorem trim_append_newline (l : List Char) :
    pyTrimL (pyTrimL l ++ ['\n']) = pyTrimL l := by
  have h : pyTrimL (pyTrimL l ++ ['\n']) =
      pyTrimLeftL (pyTrimRightL (pyTrimL l ++ ['\n'])) := rfl
  rw [h, trimRight_append, if_pos (by decide)]
  have h2 : pyTrimLeftL (pyTrimRightL (pyTrimL l)) = pyTrimL (pyTrimL l) := rfl
  rw [h2, trim_idem]

-- ==== join and splitlines ====

theorem joinNL_cons_ne (x : List Char) (M : List (List Char)) (h : M ≠ []) :
    joinNL (x :: M) = x ++ '\n' :: joinNL M := by
  cases M with
  | nil => exact absurd rfl h
  | cons y r => rfl

theorem joinNL_concat (M : List (List Char)) (x : List Char) (h : M ≠ []) :
    joinNL (M ++ [x]) = joinNL M ++ '\n' :: x := by
  induction M with
  | nil => exact absurd rfl h
  | cons y N ih =>
    by_cases hN : N = []
    · subst hN
      rfl
    · rw [List.cons_append, joinNL_cons_ne y (N ++ [x]) (by simp), ih hN,
        joinNL_cons_ne y N hN]
      simp [List.append_assoc]

theorem mapLast_concat (f : List Char → List Char) (M : List (List Char)) (x : List Char) :
    mapLast f (M ++ [x]) = M ++ [f x] := by
  rw [mapLast, List.reverse_append]
  simp [mapFirst]

theorem rdropBlank_concat (M : List (List Char)) (x : List Char) :
    rdropBlankL (M ++ [x]) =
      if blankL x = true then rdropBlankL M else M ++ [x] := by
  by_cases h : blankL x = true
  · rw [if_pos h, rdropBlankL, rdropBlankL, List.reverse_append]
    simp only [List.reverse_cons, List.reverse_nil, List.nil_append, List.singleton_append,
      List.dropWhile_cons, h, if_true]
  · rw [if_neg h, rdropBlankL, List.reverse_append]
    simp only [List.reverse_cons, List.reverse_nil, List.nil_append, List.singleton_append,
      List.dropWhile_cons, if_neg h]
    simp

theorem blank_newline_cons (x : List Char) :
    blankL ('\n' :: x) = blankL x := by
  show (isPySpace '\n' && x.all isPySpace) = x.all isPySpace
  rw [show isPySpace '\n' = true from by decide]
  simp

theorem trimRight_joinNL (L : List (List Char)) :
    pyTrimRightL (joinNL L) = joinNL (mapLast pyTrimRightL (rdropBlankL L)) := by
  induction L using List.reverseRecOn with
  | nil => rfl
  | append_singleton M x ih =>
    by_cases hM : M = []
    · subst hM
      simp only [List.nil_append]
      by_cases hx : blankL x = true
      · have h2 : rdropBlankL [x] = [] := by
          simp [rdropBlankL, List.dropWhile_cons, hx]
        show pyTrimRightL (joinNL [x]) = joinNL (mapLast pyTrimRightL (rdropBlankL [x]))
        rw [h2]
        exact (trimRight_eq_nil_iff x).mpr hx
      · have h2 : rdropBlankL [x] = [x] := by
          simp [rdropBlankL, List.dropWhile_cons, hx]
        show pyTrimRightL (joinNL [x]) = joinNL (mapLast pyTrimRightL (rdropBlankL [x]))
        rw [h2]
        rfl
    · rw [joinNL_concat M x hM, rdropBlank_concat]
      by_cases hx : blankL x = true
      · rw [if_pos hx]
        have hv : blankL ('\n' :: x) = true := by rw [blank_newline_cons]; exact hx
        have h2 : pyTrimRightL (joinNL M ++ '\n' :: x) = pyTrimRightL (joinNL M) := by
          rw [trimRight_append, if_pos hv]
        rw [h2, ih]
      · rw [if_neg hx, mapLast_concat, joinNL_concat M _ hM]
        have hv : ¬ blankL ('\n' :: x) = true := by rw [blank_newline_cons]; exact hx
        rw [trimRight_append, if_neg hv]
        have h3 : pyTrimRightL ('\n' :: x) = '\n' :: pyTrimRightL x := by
          rw [trimRight_cons, if_neg hx]
        rw [h3]

theorem trimLeft_joinNL (L : List (List Char)) :
    pyTrimLeftL (joinNL L) = joinNL (mapFirst pyTrimLeftL (L.dropWhile blankL)) := by
  induction L with
  | nil => rfl
  | cons x M ih =>
    rw [List.dropWhile_cons]
    by_cases hM : M = []
    · subst hM
      by_cases hx : blankL x = true
      · rw [if_pos hx]
        exact (trimLeft_eq_nil_iff x).mpr hx
      · rw [if_neg hx]
        rfl
    · rw [joinNL_cons_ne x M hM]
      by_cases hx : blankL x = true
      · rw [if_pos hx, trimLeft_append, if_pos hx]
        have h2 : pyTrimLeftL ('\n' :: joinNL M) = pyTrimLeftL (joinNL M) := by
          rw [trimLeft_cons, if_pos (by decide)]
        rw [h2, ih]
      · rw [if_neg hx, trimLeft_append, if_neg hx]
        show pyTrimLeftL x ++ '\n' :: joinNL M = joinNL (pyTrimLeftL x :: M)
        rw [joinNL_cons_ne _ M hM]

theorem trim_joinNL (L : List (List Char)) :
    pyTrimL (joinNL L) = joinNL (stripLines L) := by
  rw [pyTrimL, trimRight_joinNL, trimLeft_joinNL, stripLines]

-- ==== splitlines ====

theorem linesAux_no_newline (a : List Char) (h : '\n' ∉ a) :
    ∀ acc, linesAux a acc = [acc.reverse ++ a] := by
  induction a with
  | nil => intro acc; simp [linesAux]
  | cons c rest ih =>
    intro acc
    have hc : ¬ c = '\n' := by
      intro hc
      exact h (by rw [hc]; exact List.mem_cons_self _ _)
    rw [linesAux, if_neg hc, ih (fun hm => h (List.mem_cons_of_mem _ hm))]
    simp

theorem linesAux_append_newline (a b : List Char) (h : '\n' ∉ a) :
    ∀ acc, linesAux (a ++ '\n' :: b) acc = (acc.reverse ++ a) :: linesAux b [] := by
  induction a with
  | nil => intro acc; simp [linesAux]
  | cons c rest ih =>
    intro acc
    have hc : ¬ c = '\n' := by
      intro hc
      exact h (by rw [hc]; exact List.mem_cons_self _ _)
    rw [List.cons_append, linesAux, if_neg hc,
      ih (fun hm => h (List.mem_cons_of_mem _ hm))]
    simp

theorem splitRaw_singleton (x : List Char) (h : '\n' ∉ x) : splitRawL x = [x] := by
  rw [splitRawL, linesAux_no_newline x h]
  simp

theorem splitRaw_joinNL (M : List (List Char)) (h : ∀ l ∈ M, '\n' ∉ l) (hne : M ≠ []) :
    splitRawL (joinNL M) = M := by
  induction M with
  | nil => exact absurd rfl hne
  | cons x N ih =>
    by_cases hN : N = []
    · subst hN
      exact splitRaw_singleton x (h x (List.mem_cons_self _ _))
    · rw [joinNL_cons_ne x N hN, splitRawL,
        linesAux_append_newline x (joinNL N) (h x (List.mem_cons_self _ _))]
      simp only [List.reverse_nil, List.nil_append]
      rw [show linesAux (joinNL N) [] = splitRawL (joinNL N) from rfl,
        ih (fun l hl => h l (List.mem_cons_of_mem _ hl)) hN]

theorem joinNL_ne_nil (M : List (List Char)) (x : List Char)
    (hlast : M.getLast? = some x) (hx : x ≠ []) : joinNL M ≠ [] := by
  cases M with
  | nil => simp at hlast
  | cons y N =>
    by_cases hN : N = []
    · subst hN
      simp only [List.getLast?_singleton, Option.some_inj] at hlast
      show y ≠ []
      rw [hlast]
      exact hx
    · rw [joinNL_cons_ne y N hN]
      intro hc
      rcases List.append_eq_nil.mp hc with ⟨-, h2⟩
      exact List.cons_ne_nil _ _ h2

theorem joinNL_getLast? (M : List (List Char)) (x : List Char)
    (hlast : M.getLast? = some x) (hx : x ≠ []) :
    (joinNL M).getLast? = x.getLast? := by
  induction M with
  | nil => simp at hlast
  | cons y N ih =>
    by_cases hN : N = []
    · subst hN
      simp only [List.getLast?_singleton, Option.some_inj] at hlast
      rw [hlast]
      rfl
    · have hlast' : N.getLast? = some x := by
        cases N with
        | nil => exact absurd rfl hN
        | cons z R => rw [← hlast, List.getLast?_cons_cons]
      rw [joinNL_cons_ne y N hN, List.getLast?_append]
      have h2 : ('\n' :: joinNL N).getLast? = x.getLast? := by
        have h3 := joinNL_ne_nil N x hlast' hx
        cases hj : joinNL N with
        | nil => exact absurd hj h3
        | cons c w =>
          rw [List.getLast?_cons_cons, ← hj, ih hlast']
      rw [h2]
      have h4 : x.getLast?.isSome = true := List.getLast?_isSome.mpr hx
      cases hxl : x.getLast? with
      | none => rw [hxl] at h4; simp at h4
      | some c => rfl

theorem pySplitlines_joinNL (M : List (List Char)) (h : ∀ l ∈ M, '\n' ∉ l)
    (hne : M ≠ []) (x : List Char) (hlast : M.getLast? = some x) (hx : x ≠ []) :
    pySplitlinesL (joinNL M) = M := by
  rw [pySplitlinesL]
  rw [if_neg (joinNL_ne_nil M x hlast hx)]
  have h2 : (joinNL M).getLast? = x.getLast? := joinNL_getLast? M x hlast hx
  have h3 : ¬ (joinNL M).getLast? = some '\n' := by
    rw [h2]
    intro hc
    have h4 : '\n' ∈ x := by
      rcases List.getLast?_eq_some_iff.mp hc with ⟨ys, hys⟩
      rw [hys]
      simp
    have h5 : x ∈ M := by
      rcases List.getLast?_eq_some_iff.mp hlast with ⟨ys, hys⟩
      rw [hys]
      simp
    exact h x h5 h4
  rw [if_neg h3]
  exact splitRaw_joinNL M h hne

-- ==== stripLines structure ====

theorem mem_mapFirst {f : List Char → List Char} {M : List (List Char)} {x : List Char}
    (h : x ∈ mapFirst f M) : x ∈ M ∨ ∃ y ∈ M, x = f y := by
  cases M with
  | nil => simp [mapFirst] at h
  | cons y ys =>
    rw [mapFirst] at h
    rcases List.mem_cons.mp h with h | h
    · exact Or.inr ⟨y, List.mem_cons_self _ _, h⟩
    · exact Or.inl (List.mem_cons_of_mem _ h)

theorem mem_mapLast {f : List Char → List Char} {M : List (List Char)} {x : List Char}
    (h : x ∈ mapLast f M) : x ∈ M ∨ ∃ y ∈ M, x = f y := by
  rw [mapLast, List.mem_reverse] at h
  rcases mem_mapFirst h with h | ⟨y, hy, hxy⟩
  · exact Or.inl (List.mem_reverse.mp h)
  · exact Or.inr ⟨y, List.mem_reverse.mp hy, hxy⟩

theorem mem_rdropBlank {L : List (List Char)} {x : List Char} (h : x ∈ rdropBlankL L) :
    x ∈ L := by
  rw [rdropBlankL, List.mem_reverse] at h
  exact List.mem_reverse.mp ((List.dropWhile_sublist blankL).mem h)

theorem mem_stripLines {L : List (List Char)} {l : List Char} (h : l ∈ stripLines L) :
    ∃ l0 ∈ L, l = l0 ∨ l = pyTrimLeftL l0 ∨ l = pyTrimRightL l0 ∨ l = pyTrimL l0 := by
  rw [stripLines] at h
  rcases mem_mapFirst h with h | ⟨y, hy, rfl⟩
  · have h2 := (List.dropWhile_sublist blankL).mem h
    rcases mem_mapLast h2 with h3 | ⟨z, hz, rfl⟩
    · exact ⟨l, mem_rdropBlank h3, Or.inl rfl⟩
    · exact ⟨z, mem_rdropBlank hz, Or.inr (Or.inr (Or.inl rfl))⟩
  · have h2 := (List.dropWhile_sublist blankL).mem hy
    rcases mem_mapLast h2 with h3 | ⟨z, hz, rfl⟩
    · exact ⟨y, mem_rdropBlank h3, Or.inr (Or.inl rfl)⟩
    · exact ⟨z, mem_rdropBlank hz, Or.inr (Or.inr (Or.inr rfl))⟩

theorem rdropBlank_getLast_not_blank {L : List (List Char)} {x : List Char}
    (h : (rdropBlankL L).getLast? = some x) : blankL x = false := by
  rw [rdropBlankL, List.getLast?_reverse] at h
  have h2 := List.head?_dropWhile_not blankL L.reverse
  rw [h] at h2
  exact h2

theorem trimRight_getLast_not_space {x : List Char} (hx : pyTrimRightL x ≠ []) :
    ∃ c, (pyTrimRightL x).getLast? = some c ∧ isPySpace c = false := by
  have hd : pyTrimRightL x = (List.dropWhile isPySpace x.reverse).reverse := rfl
  rw [hd, List.getLast?_reverse]
  have h2 := List.head?_dropWhile_not isPySpace x.reverse
  cases hh : (List.dropWhile isPySpace x.reverse).head? with
  | none =>
    exfalso
    rw [List.head?_eq_none_iff] at hh
    exact hx (by rw [hd, hh]; rfl)
  | some c =>
    rw [hh] at h2
    exact ⟨c, rfl, h2⟩

theorem trimRight_not_blank {x : List Char} (hx : blankL x = false) :
    blankL (pyTrimRightL x) = false := by
  have hne : pyTrimRightL x ≠ [] := by
    intro hc
    rw [trimRight_eq_nil_iff] at hc
    rw [hc] at hx
    exact Bool.noConfusion hx
  obtain ⟨c, hc1, hc2⟩ := trimRight_getLast_not_space hne
  rcases List.getLast?_eq_some_iff.mp hc1 with ⟨ys, hys⟩
  by_contra hb
  rw [Bool.not_eq_false] at hb
  rw [blankL, List.all_eq_true] at hb
  have hmem : c ∈ pyTrimRightL x := by rw [hys]; simp
  rw [hb c hmem] at hc2
  exact Bool.noConfusion hc2

theorem dropWhile_getLast?_of_ne_nil {p : List Char → Bool} {M : List (List Char)}
    (h : M.dropWhile p ≠ []) : (M.dropWhile p).getLast? = M.getLast? := by
  obtain ⟨t, ht⟩ := List.dropWhile_suffix (l := M) p
  conv_rhs => rw [← ht]
  rw [List.getLast?_append]
  cases hd : (M.dropWhile p).getLast? with
  | none =>
    exfalso
    rw [List.getLast?_eq_none_iff] at hd
    exact h hd
  | some z => rfl

theorem mapFirst_getLast?_singleton (f : List Char → List Char) (y : List Char) :
    (mapFirst f [y]).getLast? = some (f y) := rfl

theorem mapFirst_getLast?_cons_cons (f : List Char → List Char) (y z : List Char)
    (rest : List (List Char)) :
    (mapFirst f (y :: z :: rest)).getLast? = (z :: rest).getLast? := by
  rw [mapFirst, List.getLast?_cons_cons]

theorem stripLines_getLast_ne_nil {L : List (List Char)} {x : List Char}
    (h : (stripLines L).getLast? = some x) : x ≠ [] := by
  rw [stripLines] at h
  cases hD : (rdropBlankL L).getLast? with
  | none =>
    exfalso
    rw [List.getLast?_eq_none_iff] at hD
    rw [hD] at h
    simp [mapLast, mapFirst, List.dropWhile_nil] at h
  | some z =>
    have hzb : blankL z = false := rdropBlank_getLast_not_blank hD
    rcases List.getLast?_eq_some_iff.mp hD with ⟨D2, hD2⟩
    rw [hD2, mapLast_concat] at h
    have htrz : blankL (pyTrimRightL z) = false := trimRight_not_blank hzb
    have hE : List.dropWhile blankL (D2 ++ [pyTrimRightL z]) ≠ [] := by
      intro hc
      rw [List.dropWhile_eq_nil_iff] at hc
      have h9 := hc (pyTrimRightL z) (by simp)
      rw [htrz] at h9
      exact Bool.noConfusion h9
    have hEl : (List.dropWhile blankL (D2 ++ [pyTrimRightL z])).getLast? =
        some (pyTrimRightL z) := by
      rw [dropWhile_getLast?_of_ne_nil hE, List.getLast?_concat]
    cases hEc : List.dropWhile blankL (D2 ++ [pyTrimRightL z]) with
    | nil => exact absurd hEc hE
    | cons e es =>
      cases es with
      | nil =>
        rw [hEc] at hEl h
        simp only [List.getLast?_singleton, Option.some_inj] at hEl
        rw [mapFirst_getLast?_singleton] at h
        simp only [Option.some_inj] at h
        rw [← h, hEl]
        intro hc
        have h3 : pyTrimL z = [] := hc
        rw [trim_eq_nil_iff] at h3
        rw [h3] at hzb
        exact Bool.noConfusion hzb
      | cons e2 rest =>
        rw [hEc] at hEl h
        rw [mapFirst_getLast?_cons_cons] at h
        rw [List.getLast?_cons_cons] at hEl
        rw [hEl] at h
        simp only [Option.some_inj] at h
        rw [← h]
        intro hc
        rw [trimRight_eq_nil_iff] at hc
        rw [hc] at hzb
        exact Bool.noConfusion hzb

theorem stripLines_newline_free {L : List (List Char)} (h : ∀ l ∈ L, '\n' ∉ l) :
    ∀ l ∈ stripLines L, '\n' ∉ l := by
  intro l hl
  rcases mem_stripLines hl with ⟨l0, hl0, hcase⟩
  have hbase := h l0 hl0
  have hsub : l.Sublist l0 := by
    rcases hcase with rfl | rfl | rfl | rfl
    · exact List.Sublist.refl _
    · exact sublist_trimLeft l0
    · exact sublist_trimRight l0
    · exact (sublist_trimLeft (pyTrimRightL l0)).trans (sublist_trimRight l0)
  intro hmem
  exact hbase (hsub.mem hmem)

theorem lines_trim_join (L : List (List Char)) (h : ∀ l ∈ L, '\n' ∉ l) :
    pySplitlinesL (pyTrimL (joinNL L)) = stripLines L := by
  rw [trim_joinNL]
  cases hS : stripLines L with
  | nil => rfl
  | cons a S2 =>
    cases hlast : (stripLines L).getLast? with
    | none =>
      exfalso
      rw [List.getLast?_eq_none_iff, hS] at hlast
      exact List.cons_ne_nil _ _ hlast
    | some x =>
      rw [← hS]
      exact pySplitlines_joinNL (stripLines L) (stripLines_newline_free h)
        (by rw [hS]; exact List.cons_ne_nil _ _) x hlast (stripLines_getLast_ne_nil hlast)

-- ==== build block ====

theorem linesAux_newline_free (s : List Char) :
    ∀ acc, '\n' ∉ acc → ∀ l ∈ linesAux s acc, '\n' ∉ l := by
  induction s with
  | nil =>
    intro acc hacc l hl
    rw [linesAux] at hl
    simp only [List.mem_singleton] at hl
    subst hl
    intro hm
    exact hacc (List.mem_reverse.mp hm)
  | cons c rest ih =>
    intro acc hacc l hl
    rw [linesAux] at hl
    by_cases hc : c = '\n'
    · rw [if_pos hc] at hl
      rcases List.mem_cons.mp hl with rfl | hl
      · intro hm
        exact hacc (List.mem_reverse.mp hm)
      · exact ih [] (by simp) l hl
    · rw [if_neg hc] at hl
      refine ih (c :: acc) ?_ l hl
      intro hm
      rcases List.mem_cons.mp hm with h9 | h9
      · exact hc h9.symm
      · exact hacc h9

theorem pySplitlines_newline_free (s : List Char) :
    ∀ l ∈ pySplitlinesL s, '\n' ∉ l := by
  intro l hl
  rw [pySplitlinesL] at hl
  by_cases h1 : s = []
  · rw [if_pos h1] at hl
    simp at hl
  · rw [if_neg h1] at hl
    by_cases h2 : s.getLast? = some '\n'
    · rw [if_pos h2] at hl
      exact linesAux_newline_free s [] (by simp) l ((List.dropLast_sublist _).mem hl)
    · rw [if_neg h2] at hl
      exact linesAux_newline_free s [] (by simp) l hl

theorem LINE_REm_shape {l : List Char} {r : List Char × List Char × List Char}
    (h : LINE_REm l = some r) : ∃ t2, l = '-' :: ' ' :: t2 := by
  unfold LINE_REm at h
  split at h
  · split at h
    · rename_i hconds
      obtain ⟨hc0, hc1, -⟩ := hconds
      exact ⟨_, by rw [hc0, hc1]⟩
    · exact absurd h (by simp)
  · exact absurd h (by simp)

theorem LINE_REm_not_blank {l : List Char} {r : List Char × List Char × List Char}
    (h : LINE_REm l = some r) : blankL l = false := by
  obtain ⟨t2, rfl⟩ := LINE_REm_shape h
  show (isPySpace '-' && (' ' :: t2).all isPySpace) = false
  rw [show isPySpace '-' = false from by decide]
  simp

theorem keptLines_spec (cutoff : PyDate) (banner : List Char) :
    ∀ (ls : List (List Char)) (ks : List (List Char)),
      (∀ l ∈ ls, '\n' ∉ l) →
      keptLinesL cutoff banner ls = some ks →
      ∀ l ∈ ks, pyTrimRightL l = l ∧ blankL l = false ∧ '\n' ∉ l ∧
        pyTrimL l ≠ pyTrimL banner ∧
        (∀ ds ts txt, LINE_REm l = some (ds, ts, txt) →
          ∃ dd, fromisoformatL ds = some dd ∧ dateLe cutoff dd) := by
  intro ls
  induction ls with
  | nil =>
    intro ks hnl h l hl
    rw [keptLinesL] at h
    simp only [Option.some_inj] at h
    rw [← h] at hl
    simp at hl
  | cons raw ls0 ih =>
    intro ks hnl h l hl
    rw [keptLinesL] at h
    have hraw : '\n' ∉ raw := hnl raw (List.mem_cons_self _ _)
    have hnl0 : ∀ x ∈ ls0, '\n' ∉ x := fun x hx => hnl x (List.mem_cons_of_mem _ hx)
    have hline_nf : '\n' ∉ pyTrimRightL raw :=
      fun hm => hraw ((sublist_trimRight raw).mem hm)
    split at h
    · exact ih ks hnl0 h l hl
    · rename_i hbanner
      split at h
      · rename_i hre
        split at h
        · rename_i hblank
          rcases Option.map_eq_some'.mp h with ⟨ks0, hks0, rfl⟩
          rcases List.mem_cons.mp hl with rfl | hl
          · refine ⟨trimRight_idem raw, ?_, hline_nf, hbanner, ?_⟩
            · rw [← Bool.not_eq_true]
              intro hb2
              rw [← trim_eq_nil_iff] at hb2
              exact hblank hb2
            · intro ds ts txt hds
              rw [hds] at hre
              exact absurd hre (by simp)
          · exact ih ks0 hnl0 hks0 l hl
        · exact ih ks hnl0 h l hl
      · rename_i g ds ts txt hre
        split at h
        · exact absurd h (by simp)
        · rename_i dd hiso
          split at h
          · rename_i hdate
            rcases Option.map_eq_some'.mp h with ⟨ks0, hks0, rfl⟩
            rcases List.mem_cons.mp hl with rfl | hl
            · refine ⟨trimRight_idem raw, LINE_REm_not_blank hre, hline_nf, hbanner, ?_⟩
              intro ds2 ts2 txt2 hds2
              rw [hds2] at hre
              simp only [Option.some_inj, Prod.mk.injEq] at hre
              obtain ⟨h1, -, -⟩ := hre
              subst h1
              exact ⟨dd, hiso, hdate⟩
            · exact ih ks0 hnl0 hks0 l hl
          · exact ih ks hnl0 h l hl

theorem blank_headerL : blankL headerL = false := by decide

theorem trimLeft_headerL : pyTrimLeftL headerL = headerL := by decide

theorem trimRight_headerL : pyTrimRightL headerL = headerL := by decide

theorem blank_nil : blankL ([] : List Char) = true := by decide

theorem stripLines_block (b e : List Char) (rest : List (List Char))
    (hrest : ∀ l ∈ rest, pyTrimRightL l = l ∧ blankL l = false) :
    stripLines ([b, [], headerL, e] ++ rest) =
      (if blankL b = true then [] else [pyTrimLeftL b, []]) ++ [headerL] ++
      (if rest = [] then (if blankL e = true then [] else [pyTrimRightL e])
       else e :: rest) := by
  induction rest using List.reverseRecOn with
  | nil =>
    rw [stripLines]
    by_cases hee : blankL e = true
    · have h1 : rdropBlankL ([b, [], headerL, e] ++ []) = [b, [], headerL] := by
        rw [List.append_nil,
          show ([b, [], headerL, e] : List (List Char)) = [b, [], headerL] ++ [e] from rfl,
          rdropBlank_concat, if_pos hee,
          show ([b, [], headerL] : List (List Char)) = [b, []] ++ [headerL] from rfl,
          rdropBlank_concat, if_neg (by rw [blank_headerL]; simp)]
      rw [h1,
        show ([b, [], headerL] : List (List Char)) = [b, []] ++ [headerL] from rfl,
        mapLast_concat, trimRight_headerL]
      by_cases hbb : blankL b = true
      · rw [if_pos hbb, if_pos rfl, if_pos hee]
        rw [show ([b, []] : List (List Char)) ++ [headerL] = b :: [] :: [headerL] from rfl]
        rw [List.dropWhile_cons, if_pos hbb, List.dropWhile_cons, if_pos blank_nil]
        rw [List.dropWhile_cons, if_neg (by rw [blank_headerL]; simp)]
        rw [mapFirst, trimLeft_headerL]
        rfl
      · rw [if_neg hbb, if_pos rfl, if_pos hee]
        rw [show ([b, []] : List (List Char)) ++ [headerL] = b :: [] :: [headerL] from rfl]
        rw [List.dropWhile_cons, if_neg hbb, mapFirst]
        rfl
    · have h1 : rdropBlankL ([b, [], headerL, e] ++ []) = [b, [], headerL] ++ [e] := by
        rw [List.append_nil,
          show ([b, [], headerL, e] : List (List Char)) = [b, [], headerL] ++ [e] from rfl,
          rdropBlank_concat, if_neg hee]
      rw [h1, mapLast_concat]
      by_cases hbb : blankL b = true
      · rw [if_pos hbb, if_pos rfl, if_neg hee]
        rw [show ([b, [], headerL] : List (List Char)) ++ [pyTrimRightL e] =
          b :: [] :: headerL :: [pyTrimRightL e] from rfl]
        rw [List.dropWhile_cons, if_pos hbb, List.dropWhile_cons, if_pos blank_nil]
        rw [List.dropWhile_cons, if_neg (by rw [blank_headerL]; simp)]
        rw [mapFirst, trimLeft_headerL]
        rfl
      · rw [if_neg hbb, if_pos rfl, if_neg hee]
        rw [show ([b, [], headerL] : List (List Char)) ++ [pyTrimRightL e] =
          b :: [] :: headerL :: [pyTrimRightL e] from rfl]
        rw [List.dropWhile_cons, if_neg hbb, mapFirst]
        rfl
  | append_singleton R r ih =>
    have hr := hrest r (by simp)
    rw [stripLines]
    have h1 : rdropBlankL ([b, [], headerL, e] ++ (R ++ [r])) =
        ([b, [], headerL, e] ++ R) ++ [r] := by
      rw [← List.append_assoc, rdropBlank_concat, if_neg (by rw [hr.2]; simp)]
    rw [h1, mapLast_concat, hr.1]
    have h2 : ([b, [], headerL, e] ++ R) ++ [r] = b :: [] :: headerL :: e :: (R ++ [r]) := by
      simp
    rw [h2]
    by_cases hbb : blankL b = true
    · rw [if_pos hbb, if_neg (by simp)]
      rw [List.dropWhile_cons, if_pos hbb, List.dropWhile_cons, if_pos blank_nil]
      rw [List.dropWhile_cons, if_neg (by rw [blank_headerL]; simp)]
      rw [mapFirst, trimLeft_headerL]
      rfl
    · rw [if_neg hbb, if_neg (by simp)]
      rw [List.dropWhile_cons, if_neg hbb, mapFirst]
      rfl

theorem headerL_newline_free : '\n' ∉ headerL := by decide

theorem lines_of_build (E b e : List Char) (t : PyDate) (out : List Char)
    (hb : '\n' ∉ b) (he : '\n' ∉ e)
    (h : buildL E b e t = some out) :
    ∃ cutoff rest, subDays t (KEEP_DAYS - 1) = some cutoff ∧
      (∀ l ∈ rest, restLineInv cutoff b e l) ∧
      out = pyTrimL (joinNL ([b, [], headerL, e] ++ rest)) ∧
      pySplitlinesL out =
        (if blankL b = true then [] else [pyTrimLeftL b, []]) ++ [headerL] ++
        (if rest = [] then (if blankL e = true then [] else [pyTrimRightL e])
         else e :: rest) := by
  unfold buildL at h
  split at h
  · exact absurd h (by simp)
  · rename_i cutoff hcut
    split at h
    · exact absurd h (by simp)
    · rename_i kept0 hkept
      simp only [Option.some_inj] at h
      refine ⟨cutoff, (kept0.filter (fun ln => ln ≠ headerL)).filter
        (fun ln => ln ≠ e ∧ pyTrimL ln ≠ headerL), hcut, ?_, ?_, ?_⟩
      · intro l hl
        rw [List.mem_filter] at hl
        obtain ⟨hl1, hl2⟩ := hl
        rw [List.mem_filter] at hl1
        obtain ⟨hl0, hl3⟩ := hl1
        simp only [decide_eq_true_eq] at hl2 hl3
        have hspec := keptLines_spec cutoff b (pySplitlinesL E) kept0
          (pySplitlines_newline_free E) hkept l hl0
        exact ⟨hspec.1, hspec.2.1, hspec.2.2.1, hspec.2.2.2.1, hl3, hl2.2, hl2.1,
          hspec.2.2.2.2⟩
      · rw [← h, trim_append_newline]
      · rw [← h, trim_append_newline]
        have hnl : ∀ l ∈ [b, [], headerL, e] ++
            (kept0.filter (fun ln => ln ≠ headerL)).filter
              (fun ln => ln ≠ e ∧ pyTrimL ln ≠ headerL), '\n' ∉ l := by
          intro l hl
          rcases List.mem_append.mp hl with hl | hl
          · simp only [List.mem_cons, List.not_mem_nil, or_false] at hl
            rcases hl with rfl | rfl | rfl | rfl
            · exact hb
            · simp
            · exact headerL_newline_free
            · exact he
          · rw [List.mem_filter] at hl
            rw [List.mem_filter] at hl
            have hspec := keptLines_spec cutoff b (pySplitlinesL E) kept0
              (pySplitlines_newline_free E) hkept l hl.1.1
            exact hspec.2.2.1
        rw [lines_trim_join _ hnl]
        apply stripLines_block
        intro l hl
        rw [List.mem_filter] at hl
        rw [List.mem_filter] at hl
        have hspec := keptLines_spec cutoff b (pySplitlinesL E) kept0
          (pySplitlines_newline_free E) hkept l hl.1.1
        exact ⟨hspec.1, hspec.2.1⟩

theorem build_new_block_some_iff {E b e : String} {t : PyDate} {out : String} :
    build_new_block E b e t = some out ↔ buildL E.data b.data e.data t = some out.data := by
  rw [build_new_block]
  constructor
  · intro h
    rcases Option.map_eq_some'.mp h with ⟨l, hl, hmk⟩
    have : (⟨l⟩ : String).data = out.data := congrArg String.data hmk
    rw [← this]
    exact hl
  · intro h
    rw [h]
    show some (⟨out.data⟩ : String) = some out
    rfl

theorem LINE_REm_nil : LINE_REm [] = none := rfl

theorem LINE_REm_headerL : LINE_REm headerL = none := by decide

/-- C2 (amended): every line of the merge output that parses as a dated
entry `- YYYY-MM-DD HH:MM UTC — text` has date at or after the cutoff
`today - (KEEP_DAYS - 1)` days — unless that line is, up to whitespace
trimming, the new entry line itself or the banner line, which are inserted
without any date check. -/
theorem C2_retention (E b e : String) (t : PyDate) (out : String)
    (hb : '\n' ∉ b.data) (he : '\n' ∉ e.data)
    (h : build_new_block E b e t = some out) :
    ∀ l ∈ pySplitlinesL out.data, ∀ ds ts txt, LINE_REm l = some (ds, ts, txt) →
      ∀ d, fromisoformatL ds = some d →
        (∃ cutoff, subDays t (KEEP_DAYS - 1) = some cutoff ∧ dateLe cutoff d) ∨
        pyTrimL l = pyTrimL e.data ∨ pyTrimL l = pyTrimL b.data := by
  rw [build_new_block_some_iff] at h
  obtain ⟨cutoff, rest, hcut, hinv, -, hlines⟩ :=
    lines_of_build E.data b.data e.data t out.data hb he h
  intro l hl ds ts txt hre d hiso
  rw [hlines] at hl
  have hcase : l = pyTrimLeftL b.data ∨ l = [] ∨ l = headerL ∨ l = e.data ∨
      l = pyTrimRightL e.data ∨ l ∈ rest := by
    rcases List.mem_append.mp hl with h1 | h1
    · rcases List.mem_append.mp h1 with h2 | h2
      · by_cases hbb : blankL b.data = true
        · rw [if_pos hbb] at h2
          simp at h2
        · rw [if_neg hbb] at h2
          simp only [List.mem_cons, List.not_mem_nil, or_false] at h2
          rcases h2 with rfl | rfl
          · exact Or.inl rfl
          · exact Or.inr (Or.inl rfl)
      · simp only [List.mem_singleton] at h2
        exact Or.inr (Or.inr (Or.inl h2))
    · by_cases hr : rest = []
      · rw [if_pos hr] at h1
        by_cases hee : blankL e.data = true
        · rw [if_pos hee] at h1
          simp at h1
        · rw [if_neg hee] at h1
          simp only [List.mem_singleton] at h1
          exact Or.inr (Or.inr (Or.inr (Or.inr (Or.inl h1))))
      · rw [if_neg hr] at h1
        rcases List.mem_cons.mp h1 with rfl | h1
        · exact Or.inr (Or.inr (Or.inr (Or.inl rfl)))
        · exact Or.inr (Or.inr (Or.inr (Or.inr (Or.inr h1))))
  rcases hcase with rfl | rfl | rfl | rfl | rfl | hmem
  · exact Or.inr (Or.inr (trim_trimLeft b.data))
  · rw [LINE_REm_nil] at hre
    exact absurd hre (by simp)
  · rw [LINE_REm_headerL] at hre
    exact absurd hre (by simp)
  · exact Or.inr (Or.inl rfl)
  · exact Or.inr (Or.inl (trim_trimRight e.data))
  · obtain ⟨-, -, -, -, -, -, -, hparse⟩ := hinv l hmem
    obtain ⟨dd, hdd, hdate⟩ := hparse ds ts txt hre
    rw [hiso] at hdd
    simp only [Option.some_inj] at hdd
    cases hdd
    exact Or.inl ⟨cutoff, hcut, hdate⟩

/-- C3 (amended): the merge output — hence also the output of merging an
already-merged block again with the same entry line — contains exactly one
line equal to the new entry line, provided that line is right-stripped,
non-blank, differs from the banner line up to trimming and is not the
header line. -/
theorem C3_dedup (E b e : List Char) (t : PyDate) (out : List Char)
    (hb : '\n' ∉ b) (he : '\n' ∉ e) (he1 : pyTrimRightL e = e) (he2 : blankL e = false)
    (he3 : pyTrimL e ≠ pyTrimL b) (he4 : e ≠ headerL)
    (h : buildL E b e t = some out) :
    (pySplitlinesL out).count e = 1 := by
  obtain ⟨cutoff, rest, hcut, hinv, -, hlines⟩ := lines_of_build E b e t out hb he h
  rw [hlines, List.count_append, List.count_append]
  have c1 : ((if blankL b = true then [] else [pyTrimLeftL b, []]) : List (List Char)).count e
      = 0 := by
    by_cases hbb : blankL b = true
    · rw [if_pos hbb]
      rfl
    · rw [if_neg hbb]
      have hne1 : pyTrimLeftL b ≠ e := by
        intro hc
        exact he3 (by rw [← hc, trim_trimLeft])
      have hne2 : ([] : List Char) ≠ e := by
        intro hc
        rw [← hc] at he2
        exact Bool.noConfusion (blank_nil ▸ he2)
      simp only [List.count_cons, List.count_nil, beq_iff_eq]
      rw [if_neg hne1, if_neg hne2]
  have c2 : ([headerL] : List (List Char)).count e = 0 := by
    have : headerL ≠ e := fun hc => he4 hc.symm
    simp [List.count_cons, List.count_nil, beq_iff_eq, this]
  have c3 : ((if rest = [] then (if blankL e = true then [] else [pyTrimRightL e])
      else e :: rest) : List (List Char)).count e = 1 := by
    by_cases hr : rest = []
    · rw [if_pos hr, if_neg (by rw [he2]; simp), he1]
      simp [List.count_cons, List.count_nil]
    · rw [if_neg hr]
      have crest : rest.count e = 0 := by
        rw [List.count_eq_zero]
        intro hc
        obtain ⟨-, -, -, -, -, -, hne, -⟩ := hinv e hc
        exact hne rfl
      simp [List.count_cons, beq_iff_eq, crest]
  rw [c1, c2, c3]

theorem keptLinesL_cons_eq (cutoff : PyDate) (banner raw : List Char) (ls : List (List Char)) :
    keptLinesL cutoff banner (raw :: ls) =
      (if pyTrimL (pyTrimRightL raw) = pyTrimL banner then keptLinesL cutoff banner ls
       else
        match LINE_REm (pyTrimRightL raw) with
        | none =>
          if pyTrimL (pyTrimRightL raw) ≠ [] then
            (keptLinesL cutoff banner ls).map (pyTrimRightL raw :: ·)
          else keptLinesL cutoff banner ls
        | some (ds, _, _) =>
          match fromisoformatL ds with
          | none => none
          | some d =>
            if dateLe cutoff d then
              (keptLinesL cutoff banner ls).map (pyTrimRightL raw :: ·)
            else keptLinesL cutoff banner ls) := rfl

theorem keptLines_rest (cutoff : PyDate) (b e : List Char) :
    ∀ rest : List (List Char), (∀ l ∈ rest, restLineInv cutoff b e l) →
      keptLinesL cutoff b rest = some rest := by
  intro rest
  induction rest with
  | nil => intro _; rfl
  | cons l ls ih =>
    intro hinv
    obtain ⟨h1, h2, h3, h4, h5, h6, h7, h8⟩ := hinv l (List.mem_cons_self _ _)
    have hls := fun x hx => hinv x (List.mem_cons_of_mem _ hx)
    rw [keptLinesL_cons_eq, h1, if_neg h4]
    cases hre : LINE_REm l with
    | none =>
      have hnb : pyTrimL l ≠ [] := by
        intro hc
        rw [trim_eq_nil_iff] at hc
        rw [hc] at h2
        exact Bool.noConfusion h2
      rw [if_pos hnb, ih hls]
      rfl
    | some g =>
      obtain ⟨ds, ts, txt⟩ := g
      obtain ⟨dd, hdd, hdate⟩ := h8 ds ts txt hre
      simp only [hdd]
      rw [if_pos hdate, ih hls]
      rfl

theorem filter_ne_self {p : List Char → Prop} [DecidablePred p]
    (rest : List (List Char)) (h : ∀ l ∈ rest, p l) :
    rest.filter (fun ln => p ln) = rest := by
  rw [List.filter_eq_self]
  intro a ha
  simp only [decide_eq_true_eq]
  exact h a ha

theorem build_idem (E b e : List Char) (t : PyDate) (B1 : List Char)
    (hb : '\n' ∉ b) (he : '\n' ∉ e) (he1 : pyTrimRightL e = e)
    (ds ts txt : List Char) (hee : LINE_REm e = some (ds, ts, txt))
    (d : PyDate) (hiso : fromisoformatL ds = some d)
    (cutoff : PyDate) (hcut : subDays t (KEEP_DAYS - 1) = some cutoff)
    (hdate : dateLe cutoff d)
    (h : buildL E b e t = some B1) :
    buildL B1 b e t = some B1 := by
  obtain ⟨cutoff2, rest, hcut2, hinv, hout, hlines⟩ := lines_of_build E b e t B1 hb he h
  rw [hcut] at hcut2
  simp only [Option.some_inj] at hcut2
  subst hcut2
  have he2 : blankL e = false := LINE_REm_not_blank hee
  have heh : e ≠ headerL := by
    intro hc
    rw [hc, LINE_REm_headerL] at hee
    exact Option.noConfusion hee
  -- the tail of the line characterisation collapses to `e :: rest`
  have htail : (if rest = [] then (if blankL e = true then [] else [pyTrimRightL e])
      else e :: rest) = e :: rest := by
    by_cases hr : rest = []
    · rw [if_pos hr, if_neg (by rw [he2]; simp), he1, hr]
    · rw [if_neg hr]
  rw [htail] at hlines
  -- the survivors of re-processing `B1`'s lines
  have hrest_kept := keptLines_rest cutoff b e rest hinv
  have hstep_e : ∃ K, keptLinesL cutoff b (e :: rest) = some K ∧
      (K.filter (fun ln => ln ≠ headerL)).filter
        (fun ln => ln ≠ e ∧ pyTrimL ln ≠ headerL) = rest := by
    have hfilters : ((rest.filter (fun ln => ln ≠ headerL)).filter
        (fun ln => ln ≠ e ∧ pyTrimL ln ≠ headerL)) = rest := by
      rw [filter_ne_self rest (fun l hl => (hinv l hl).2.2.2.2.1)]
      rw [filter_ne_self rest (fun l hl => ⟨(hinv l hl).2.2.2.2.2.2.1,
        (hinv l hl).2.2.2.2.2.1⟩)]
    by_cases hbe : pyTrimL e = pyTrimL b
    · refine ⟨rest, ?_, hfilters⟩
      rw [keptLinesL_cons_eq, he1, if_pos hbe, hrest_kept]
    · refine ⟨e :: rest, ?_, ?_⟩
      · rw [keptLinesL_cons_eq, he1, if_neg hbe]
        simp only [hee, hiso]
        rw [if_pos hdate, hrest_kept]
        rfl
      · rw [List.filter_cons]
        rw [if_pos (by simp only [decide_eq_true_eq]; exact heh)]
        rw [List.filter_cons]
        rw [if_neg (by simp only [decide_eq_true_eq]; intro hc; exact hc.1 rfl)]
        exact (by
          rw [filter_ne_self rest (fun l hl => (hinv l hl).2.2.2.2.1)]
          rw [filter_ne_self rest (fun l hl => ⟨(hinv l hl).2.2.2.2.2.2.1,
            (hinv l hl).2.2.2.2.2.1⟩)])
  obtain ⟨K, hK, hKf⟩ := hstep_e
  have hstep_hdr : ∃ K2, keptLinesL cutoff b (headerL :: e :: rest) = some K2 ∧
      (K2.filter (fun ln => ln ≠ headerL)).filter
        (fun ln => ln ≠ e ∧ pyTrimL ln ≠ headerL) = rest := by
    by_cases hbh : pyTrimL headerL = pyTrimL b
    · refine ⟨K, ?_, hKf⟩
      rw [keptLinesL_cons_eq, trimRight_headerL, if_pos hbh, hK]
    · refine ⟨headerL :: K, ?_, ?_⟩
      · rw [keptLinesL_cons_eq, trimRight_headerL, if_neg hbh, LINE_REm_headerL,
          if_pos (by decide), hK]
        rfl
      · rw [List.filter_cons]
        rw [if_neg (by simp only [decide_eq_true_eq]; intro hc; exact hc rfl)]
        exact hKf
  obtain ⟨K2, hK2, hK2f⟩ := hstep_hdr
  -- prepend the (possibly trimmed) banner prefix
  have hstep_all : ∃ K3, keptLinesL cutoff b (pySplitlinesL B1) = some K3 ∧
      (K3.filter (fun ln => ln ≠ headerL)).filter
        (fun ln => ln ≠ e ∧ pyTrimL ln ≠ headerL) = rest := by
    rw [hlines]
    by_cases hbb : blankL b = true
    · rw [if_pos hbb]
      exact ⟨K2, hK2, hK2f⟩
    · rw [if_neg hbb]
      refine ⟨K2, ?_, hK2f⟩
      show keptLinesL cutoff b (pyTrimLeftL b :: [] :: headerL :: e :: rest) = some K2
      rw [keptLinesL_cons_eq]
      rw [if_pos (by rw [trim_trimRight, trim_trimLeft])]
      rw [keptLinesL_cons_eq]
      rw [if_neg (by
        show ¬ pyTrimL (pyTrimRightL []) = pyTrimL b
        intro hc
        have hbe : pyTrimL b = [] := hc.symm
        rw [trim_eq_nil_iff] at hbe
        rw [hbe] at hbb
        exact hbb rfl)]
      rw [show LINE_REm (pyTrimRightL []) = none from rfl]
      rw [if_neg (by simp [pyTrimRightL, pyTrimLeftL, pyTrimL])]
      exact hK2
  obtain ⟨K3, hK3, hK3f⟩ := hstep_all
  -- evaluate the second build
  unfold buildL
  simp only [hcut, hK3, hK3f]
  rw [show pyTrimL (pyTrimL (joinNL ([b, [], headerL, e] ++ rest)) ++ ['\n']) =
      pyTrimL (joinNL ([b, [], headerL, e] ++ rest)) from trim_append_newline _]
  rw [← hout]

-- ==== substring occurrences ====

theorem leadsList_iff_append (pat : List Char) :
    ∀ s, leadsList pat s = true ↔ ∃ t, s = pat ++ t := by
  induction pat with
  | nil =>
    intro s
    simp [leadsList]
  | cons c p ih =>
    intro s
    cases s with
    | nil =>
      simp only [leadsList]
      constructor
      · intro h
        exact absurd h (by simp)
      · rintro ⟨t, ht⟩
        exact absurd ht (by simp)
    | cons d s0 =>
      rw [leadsList]
      constructor
      · intro h
        simp only [Bool.and_eq_true] at h
        obtain ⟨h1, h2⟩ := h
        rcases (ih s0).mp h2 with ⟨t, rfl⟩
        exact ⟨t, by rw [beq_iff_eq.mp h1]; rfl⟩
      · rintro ⟨t, ht⟩
        rw [List.cons_append] at ht
        injection ht with h1 h2
        simp only [Bool.and_eq_true]
        exact ⟨beq_iff_eq.mpr h1.symm, (ih s0).mpr ⟨t, h2⟩⟩

theorem leadsList_length_le {pat s : List Char} (h : leadsList pat s = true) :
    pat.length ≤ s.length := by
  rcases (leadsList_iff_append pat s).mp h with ⟨t, rfl⟩
  simp

theorem leadsList_of_append {pat u : List Char} (z : List Char)
    (h : leadsList pat u = true) : leadsList pat (u ++ z) = true := by
  rcases (leadsList_iff_append pat u).mp h with ⟨t, rfl⟩
  rw [List.append_assoc]
  exact (leadsList_iff_append pat _).mpr ⟨t ++ z, rfl⟩

theorem leadsList_append_left {pat u v : List Char}
    (h : leadsList pat (u ++ v) = true) (hlen : pat.length ≤ u.length) :
    leadsList pat u = true := by
  rcases (leadsList_iff_append pat (u ++ v)).mp h with ⟨t, ht⟩
  have h4 : u = pat ++ t.take (u.length - pat.length) := by
    have h5 : u = (u ++ v).take u.length := by simp [List.take_left]
    conv_lhs => rw [h5]
    rw [ht, List.take_append_eq_append_take, List.take_of_length_le hlen]
  exact (leadsList_iff_append pat u).mpr ⟨_, h4⟩

theorem leadsList_boundary {pat u v : List Char}
    (h : leadsList pat (u ++ v) = true) (hlen : u.length < pat.length) :
    ∀ c, v.head? = some c → c ∈ pat := by
  intro c hc
  rcases (leadsList_iff_append pat (u ++ v)).mp h with ⟨t, ht⟩
  have h2 : pat = u ++ v.take (pat.length - u.length) := by
    have h5 : pat = (pat ++ t).take pat.length := by simp [List.take_left]
    conv_lhs => rw [h5]
    rw [← ht, List.take_append_eq_append_take, List.take_of_length_le (le_of_lt hlen)]
  have h3 : c ∈ v.take (pat.length - u.length) := by
    cases v with
    | nil => simp at hc
    | cons d v0 =>
      simp only [List.head?_cons, Option.some_inj] at hc
      subst hc
      cases hp : pat.length - u.length with
      | zero => omega
      | succ n => simp [List.take_cons]
  rw [h2]
  exact List.mem_append.mpr (Or.inr h3)

theorem occursAt_le_length {pat s : List Char} {i : Nat} (hp : pat ≠ [])
    (h : occursAt pat s i) : i < s.length := by
  have h2 := leadsList_length_le h
  rw [List.length_drop] at h2
  have h3 : 0 < pat.length := List.length_pos.mpr hp
  omega

theorem countOccur_unique {pat s : List Char} (hp : pat ≠ [])
    (h1 : countOccur pat s = 1) {i j : Nat}
    (hi : occursAt pat s i) (hj : occursAt pat s j) : i = j := by
  rw [countOccur] at h1
  rcases List.length_eq_one.mp h1 with ⟨x, hx⟩
  have hmem : ∀ k, occursAt pat s k →
      k ∈ (List.range (s.length + 1)).filter (fun m => leadsList pat (s.drop m)) := by
    intro k hk
    rw [List.mem_filter, List.mem_range]
    exact ⟨by have := occursAt_le_length hp hk; omega, hk⟩
  have h2 := hmem i hi
  have h3 := hmem j hj
  rw [hx] at h2 h3
  simp only [List.mem_singleton] at h2 h3
  rw [h2, h3]

theorem countOccur_zero {pat s : List Char} (hp : pat ≠ [])
    (h : countOccur pat s = 0) : ∀ i, ¬ occursAt pat s i := by
  intro i hi
  rw [countOccur, List.length_eq_zero] at h
  have h2 : i ∈ (List.range (s.length + 1)).filter (fun m => leadsList pat (s.drop m)) := by
    rw [List.mem_filter, List.mem_range]
    exact ⟨by have := occursAt_le_length hp hi; omega, hi⟩
  rw [h] at h2
  simp at h2

theorem occursAt_shift {pat a b : List Char} {k : Nat} (h : occursAt pat b k) :
    occursAt pat (a ++ b) (a.length + k) := by
  rw [occursAt, List.drop_append]
  exact h

theorem occursAt_drop {pat s : List Char} {k i : Nat} :
    occursAt pat (s.drop k) i ↔ occursAt pat s (k + i) := by
  rw [occursAt, occursAt, List.drop_drop]

theorem occursAt_append_elim {pat a b : List Char} {i : Nat} (hp : pat ≠ [])
    (h : occursAt pat (a ++ b) i) :
    (i + pat.length ≤ a.length ∧ occursAt pat a i) ∨
    (a.length ≤ i ∧ occursAt pat b (i - a.length)) ∨
    (i < a.length ∧ a.length < i + pat.length ∧ ∃ c, b.head? = some c ∧ c ∈ pat) := by
  by_cases hi : a.length ≤ i
  · refine Or.inr (Or.inl ⟨hi, ?_⟩)
    rw [occursAt] at h ⊢
    have h2 : (a ++ b).drop i = b.drop (i - a.length) := by
      have h3 : i = a.length + (i - a.length) := by omega
      conv_lhs => rw [h3, List.drop_append]
    rw [← h2]
    exact h
  · push_neg at hi
    have hd : (a ++ b).drop i = a.drop i ++ b := List.drop_append_of_le_length (by omega)
    rw [occursAt, hd] at h
    by_cases hlen : i + pat.length ≤ a.length
    · refine Or.inl ⟨hlen, ?_⟩
      rw [occursAt]
      exact leadsList_append_left h (by rw [List.length_drop]; omega)
    · push_neg at hlen
      refine Or.inr (Or.inr ⟨hi, hlen, ?_⟩)
      cases hb : b.head? with
      | none =>
        exfalso
        rw [List.head?_eq_none_iff] at hb
        subst hb
        rw [List.append_nil] at h
        have := leadsList_length_le h
        rw [List.length_drop] at this
        omega
      | some c =>
        exact ⟨c, rfl, leadsList_boundary h (by rw [List.length_drop]; omega) c hb⟩

-- ==== search function specs ====

theorem findOcc_eq_some_of {pat : List Char} (hp : pat ≠ []) :
    ∀ (s : List Char) (i : Nat), occursAt pat s i → (∀ j, j < i → ¬ occursAt pat s j) →
      findOcc pat s = some i := by
  intro s
  induction s with
  | nil =>
    intro i h _
    exfalso
    have h2 := leadsList_length_le h
    simp only [List.drop_nil, List.length_nil] at h2
    have h3 : 0 < pat.length := List.length_pos.mpr hp
    omega
  | cons c rest ih =>
    intro i h hmin
    rw [findOcc]
    by_cases h0 : leadsList pat (c :: rest) = true
    · rw [if_pos h0]
      cases i with
      | zero => rfl
      | succ n => exact absurd (show occursAt pat (c :: rest) 0 from h0) (hmin 0 (Nat.succ_pos n))
    · rw [if_neg h0]
      cases i with
      | zero => exact absurd h h0
      | succ n =>
        have h2 : occursAt pat rest n := h
        have hmin2 : ∀ j, j < n → ¬ occursAt pat rest j := fun j hj hc =>
          hmin (j + 1) (by omega) hc
        rw [ih n h2 hmin2]
        rfl

theorem findOcc_eq_none_of {pat : List Char} :
    ∀ s : List Char, (∀ i, ¬ occursAt pat s i) → findOcc pat s = none := by
  intro s
  induction s with
  | nil =>
    intro h
    rw [findOcc, if_neg]
    exact h 0
  | cons c rest ih =>
    intro h
    rw [findOcc, if_neg (show ¬ leadsList pat (c :: rest) = true from h 0)]
    rw [ih (fun i hc => h (i + 1) hc)]
    rfl

theorem findOcc_some_imp {pat : List Char} :
    ∀ (s : List Char) (i : Nat), findOcc pat s = some i → occursAt pat s i := by
  intro s
  induction s with
  | nil =>
    intro i h
    rw [findOcc] at h
    by_cases h0 : leadsList pat [] = true
    · rw [if_pos h0] at h
      simp only [Option.some_inj] at h
      rw [← h]
      exact h0
    · rw [if_neg h0] at h
      exact absurd h (by simp)
  | cons c rest ih =>
    intro i h
    rw [findOcc] at h
    by_cases h0 : leadsList pat (c :: rest) = true
    · rw [if_pos h0] at h
      simp only [Option.some_inj] at h
      rw [← h]
      exact h0
    · rw [if_neg h0] at h
      rcases Option.map_eq_some'.mp h with ⟨n, hn, rfl⟩
      exact ih n hn

theorem findOcc_none_imp {pat : List Char} :
    ∀ s : List Char, findOcc pat s = none → ∀ i, ¬ occursAt pat s i := by
  intro s
  induction s with
  | nil =>
    intro h i hc
    rw [findOcc] at h
    have hlt : i < ([] : List Char).length ∨ pat = [] := by
      by_cases hp : pat = []
      · exact Or.inr hp
      · exact Or.inl (occursAt_le_length hp hc)
    rcases hlt with hlt | rfl
    · simp at hlt
    · simp [leadsList] at h
  | cons c rest ih =>
    intro h i hc
    rw [findOcc] at h
    by_cases h0 : leadsList pat (c :: rest) = true
    · rw [if_pos h0] at h
      exact absurd h (by simp)
    · rw [if_neg h0] at h
      cases i with
      | zero => exact h0 hc
      | succ n =>
        have h2 : findOcc pat rest = none := by
          cases hfr : findOcc pat rest with
          | none => rfl
          | some m => rw [hfr] at h; exact absurd h (by simp)
        exact ih h2 n hc

theorem pyInL_iff {pat s : List Char} (hp : pat ≠ []) :
    pyInL pat s = true ↔ ∃ i, occursAt pat s i := by
  rw [pyInL]
  constructor
  · intro h
    cases hf : findOcc pat s with
    | none => rw [hf] at h; simp at h
    | some i => exact ⟨i, findOcc_some_imp s i hf⟩
  · rintro ⟨i, hi⟩
    cases hf : findOcc pat s with
    | none => exact absurd hi (findOcc_none_imp s hf i)
    | some m => simp

theorem findLastOcc_eq_none_of {pat : List Char} :
    ∀ s : List Char, (∀ i, ¬ occursAt pat s i) → findLastOcc pat s = none := by
  intro s
  induction s with
  | nil =>
    intro h
    rw [findLastOcc, if_neg]
    exact h 0
  | cons c rest ih =>
    intro h
    rw [findLastOcc, ih (fun i hc => h (i + 1) hc)]
    show (if leadsList pat (c :: rest) = true then some 0 else none) = none
    rw [if_neg (show ¬ leadsList pat (c :: rest) = true from h 0)]

theorem findLastOcc_eq_some_of {pat : List Char} (hp : pat ≠ []) :
    ∀ (s : List Char) (i : Nat), occursAt pat s i → (∀ j, occursAt pat s j → j ≤ i) →
      findLastOcc pat s = some i := by
  intro s
  induction s with
  | nil =>
    intro i h _
    exfalso
    have h2 := leadsList_length_le h
    simp only [List.drop_nil, List.length_nil] at h2
    have h3 : 0 < pat.length := List.length_pos.mpr hp
    omega
  | cons c rest ih =>
    intro i h hmax
    rw [findLastOcc]
    cases i with
    | zero =>
      have hnone : findLastOcc pat rest = none := by
        refine findLastOcc_eq_none_of rest (fun j hc => ?_)
        have h2 : occursAt pat (c :: rest) (j + 1) := hc
        have := hmax (j + 1) h2
        omega
      rw [hnone]
      show (if leadsList pat (c :: rest) = true then some 0 else none) = some 0
      rw [if_pos (show leadsList pat (c :: rest) = true from h)]
    | succ n =>
      have h2 : occursAt pat rest n := h
      have hmax2 : ∀ j, occursAt pat rest j → j ≤ n := fun j hc => by
        have h3 : occursAt pat (c :: rest) (j + 1) := hc
        have := hmax (j + 1) h3
        omega
      rw [ih n h2 hmax2]

-- ==== substitution frame ====

theorem subAllFuel_succ (ps : List TmplPiece) (f : Nat) (s : List Char) :
    subAllFuel ps (f + 1) s =
      (match findOcc Sd s with
       | none => s
       | some i =>
         match findOccFrom Ed (i + Sd.length) s with
         | none => s
         | some j =>
           s.take i ++ expandPieces ps ((s.drop i).take (j + Ed.length - i)) ++
             subAllFuel ps f (s.drop (j + Ed.length))) := rfl

theorem subAllFuel_no_S (ps : List TmplPiece) (post : List Char)
    (hpost : ∀ k, ¬ occursAt Sd post k) :
    ∀ fuel, subAllFuel ps fuel post = post := by
  intro fuel
  cases fuel with
  | zero => rfl
  | succ f =>
    rw [subAllFuel_succ, findOcc_eq_none_of post hpost]

theorem Sd_ne_nil : Sd ≠ [] := by decide

theorem Ed_ne_nil : Ed ≠ [] := by decide

theorem subAllFuel_frame (ps : List TmplPiece) (pre mid post : List Char) (fuel : Nat)
    (hfuel : 0 < fuel)
    (hS : ∀ i, occursAt Sd (pre ++ Sd ++ mid ++ Ed ++ post) i → i = pre.length)
    (hE : ∀ j, occursAt Ed (pre ++ Sd ++ mid ++ Ed ++ post) j →
      j = pre.length + Sd.length + mid.length)
    (hpost : ∀ k, ¬ occursAt Sd post k) :
    subAllFuel ps fuel (pre ++ Sd ++ mid ++ Ed ++ post) =
      pre ++ expandPieces ps (Sd ++ mid ++ Ed) ++ post := by
  obtain ⟨f, rfl⟩ : ∃ f, fuel = f + 1 := ⟨fuel - 1, by omega⟩
  set s := pre ++ Sd ++ mid ++ Ed ++ post with hs
  have hsgroup : s = pre ++ (Sd ++ (mid ++ (Ed ++ post))) := by
    rw [hs]
    simp [List.append_assoc]
  have hdrop_pre : s.drop pre.length = Sd ++ (mid ++ (Ed ++ post)) := by
    rw [hsgroup, List.drop_left]
  have hocc_pre : occursAt Sd s pre.length := by
    rw [occursAt, hdrop_pre]
    exact (leadsList_iff_append Sd _).mpr ⟨_, rfl⟩
  have hfind1 : findOcc Sd s = some pre.length :=
    findOcc_eq_some_of Sd_ne_nil s pre.length hocc_pre
      (fun j hj hc => by have := hS j hc; omega)
  have hdrop_preS : s.drop (pre.length + Sd.length) = mid ++ (Ed ++ post) := by
    have hg2 : s = (pre ++ Sd) ++ (mid ++ (Ed ++ post)) := by
      rw [hs]
      simp [List.append_assoc]
    rw [hg2, List.drop_left']
    rw [List.length_append]
  have hocc_mid : occursAt Ed (mid ++ (Ed ++ post)) mid.length := by
    rw [occursAt, List.drop_left]
    exact (leadsList_iff_append Ed _).mpr ⟨_, rfl⟩
  have hfind2 : findOcc Ed (s.drop (pre.length + Sd.length)) = some mid.length := by
    rw [hdrop_preS]
    refine findOcc_eq_some_of Ed_ne_nil _ mid.length hocc_mid (fun j hj hc => ?_)
    have h2 : occursAt Ed s (pre.length + Sd.length + j) := by
      have h3 := occursAt_drop.mp (by rw [hdrop_preS]; exact hc)
      exact h3
    have := hE _ h2
    omega
  have hfindFrom : findOccFrom Ed (pre.length + Sd.length) s =
      some (mid.length + (pre.length + Sd.length)) := by
    rw [findOccFrom, hfind2]
    rfl
  rw [subAllFuel_succ]
  simp only [hfind1, hfindFrom]
  have htake_pre : s.take pre.length = pre := by
    rw [hsgroup, List.take_left]
  have harith : mid.length + (pre.length + Sd.length) + Ed.length - pre.length =
      (Sd ++ mid ++ Ed).length := by
    simp only [List.length_append]
    omega
  have hseg : (s.drop pre.length).take
      (mid.length + (pre.length + Sd.length) + Ed.length - pre.length) =
      Sd ++ mid ++ Ed := by
    rw [harith, hdrop_pre]
    have hg3 : Sd ++ (mid ++ (Ed ++ post)) = (Sd ++ mid ++ Ed) ++ post := by
      simp [List.append_assoc]
    rw [hg3, List.take_left]
  have hdrop_all : s.drop (mid.length + (pre.length + Sd.length) + Ed.length) = post := by
    have hg4 : s = (pre ++ Sd ++ mid ++ Ed) ++ post := by
      rw [hs]
    have harith2 : mid.length + (pre.length + Sd.length) + Ed.length =
        (pre ++ Sd ++ mid ++ Ed).length := by
      simp only [List.length_append]
      omega
    rw [hg4, harith2, List.drop_left]
  rw [htake_pre, hseg, hdrop_all, subAllFuel_no_S ps post hpost]

theorem subAllAux_frame (ps : List TmplPiece) (pre mid post : List Char)
    (hS : ∀ i, occursAt Sd (pre ++ Sd ++ mid ++ Ed ++ post) i → i = pre.length)
    (hE : ∀ j, occursAt Ed (pre ++ Sd ++ mid ++ Ed ++ post) j →
      j = pre.length + Sd.length + mid.length)
    (hpost : ∀ k, ¬ occursAt Sd post k) :
    subAllAux ps (pre ++ Sd ++ mid ++ Ed ++ post) =
      pre ++ expandPieces ps (Sd ++ mid ++ Ed) ++ post := by
  rw [subAllAux]
  exact subAllFuel_frame ps pre mid post _ (by omega) hS hE hpost

-- ==== template parsing ====

theorem parseTemplate_cons_of_ne (c : Char) (rest : List Char) (h : c ≠ '\\') :
    parseTemplate (c :: rest) = (parseTemplate rest).map (TmplPiece.lit c :: ·) := by
  rw [parseTemplate.eq_def]
  simp only []
  rw [if_neg h]

theorem parseTemplate_append_litfree (a : List Char) (r : List Char) (h : '\\' ∉ a) :
    parseTemplate (a ++ r) =
      (parseTemplate r).map (fun ps => a.map TmplPiece.lit ++ ps) := by
  induction a with
  | nil =>
    simp only [List.nil_append, List.map_nil]
    cases hp : parseTemplate r with
    | none => rfl
    | some ps => simp
  | cons c a0 ih =>
    have hc : c ≠ '\\' := fun hc => h (by rw [hc]; exact List.mem_cons_self _ _)
    rw [List.cons_append, parseTemplate_cons_of_ne c _ hc,
      ih (fun hm => h (List.mem_cons_of_mem _ hm))]
    cases hp : parseTemplate r with
    | none => rfl
    | some ps => rfl

theorem expandPieces_append (ps1 ps2 : List TmplPiece) (m : List Char) :
    expandPieces (ps1 ++ ps2) m = expandPieces ps1 m ++ expandPieces ps2 m := by
  rw [expandPieces, expandPieces, expandPieces, List.map_append, List.flatten_append]

theorem expandPieces_lits (a m : List Char) :
    expandPieces (a.map TmplPiece.lit) m = a := by
  induction a with
  | nil => rfl
  | cons c a0 ih =>
    rw [List.map_cons, expandPieces, List.map_cons, List.flatten_cons]
    rw [expandPieces] at ih
    rw [ih]
    rfl

theorem backslash_not_mem_SdNL : '\\' ∉ Sd ++ ['\n'] := by decide

/-- C4: for a document in which each marker occurs exactly once (start
before end), the update replaces only the delimited region: the text
strictly before the start marker and strictly after the end marker is
byte-identical, and the replaced region still opens with the start
marker. -/
theorem C4_marker_frame (pre mid post : List Char) (B u : String)
    (h1 : countOccur Sd (pre ++ Sd ++ mid ++ Ed ++ post) = 1)
    (h2 : countOccur Ed (pre ++ Sd ++ mid ++ Ed ++ post) = 1)
    (hu : update_region ⟨pre ++ Sd ++ mid ++ Ed ++ post⟩ B = some u) :
    ∃ core, u.data = pre ++ (Sd ++ core) ++ post := by
  unfold update_region at hu
  rcases Option.map_eq_some'.mp hu with ⟨ps, hps, hmk⟩
  have hudata : u.data = subAllAux ps (pre ++ Sd ++ mid ++ Ed ++ post) :=
    (congrArg String.data hmk).symm
  -- the two marker occurrences pinned by the uniqueness hypotheses
  have hsgroup : pre ++ Sd ++ mid ++ Ed ++ post = pre ++ (Sd ++ (mid ++ (Ed ++ post))) := by
    simp [List.append_assoc]
  have hoccS : occursAt Sd (pre ++ Sd ++ mid ++ Ed ++ post) pre.length := by
    rw [occursAt, hsgroup, List.drop_left]
    exact (leadsList_iff_append Sd _).mpr ⟨_, rfl⟩
  have hS : ∀ i, occursAt Sd (pre ++ Sd ++ mid ++ Ed ++ post) i → i = pre.length :=
    fun i hi => countOccur_unique Sd_ne_nil h1 hi hoccS
  have hoccE : occursAt Ed (pre ++ Sd ++ mid ++ Ed ++ post)
      (pre.length + Sd.length + mid.length) := by
    have hg2 : pre ++ Sd ++ mid ++ Ed ++ post = (pre ++ Sd ++ mid) ++ (Ed ++ post) := by
      simp [List.append_assoc]
    have hlen : (pre ++ Sd ++ mid).length = pre.length + Sd.length + mid.length := by
      simp only [List.length_append]
    rw [occursAt, hg2, ← hlen, List.drop_left]
    exact (leadsList_iff_append Ed _).mpr ⟨_, rfl⟩
  have hE : ∀ j, occursAt Ed (pre ++ Sd ++ mid ++ Ed ++ post) j →
      j = pre.length + Sd.length + mid.length :=
    fun j hj => countOccur_unique Ed_ne_nil h2 hj hoccE
  have hpost : ∀ k, ¬ occursAt Sd post k := by
    intro k hk
    have h3 : occursAt Sd (pre ++ Sd ++ mid ++ Ed ++ post)
        ((pre ++ Sd ++ mid ++ Ed).length + k) := by
      have hg3 : pre ++ Sd ++ mid ++ Ed ++ post = (pre ++ Sd ++ mid ++ Ed) ++ post := rfl
      rw [hg3]
      exact occursAt_shift hk
    have h4 := hS _ h3
    have h5 : (pre ++ Sd ++ mid ++ Ed).length =
        pre.length + Sd.length + mid.length + Ed.length := by
      simp only [List.length_append]
    rw [h5] at h4
    have h6 : 0 < Sd.length := by decide
    omega
  rw [hudata, subAllAux_frame ps pre mid post hS hE hpost]
  -- the parsed template opens with the literal start marker and newline
  have htmpl : (START ++ "\n" ++ B ++ "\n" ++ END).data =
      (Sd ++ ['\n']) ++ (B.data ++ ('\n' :: Ed)) := by
    simp only [String.data_append]
    show Sd ++ "\n".data ++ B.data ++ "\n".data ++ Ed = _
    simp [List.append_assoc]
  rw [htmpl, parseTemplate_append_litfree _ _ backslash_not_mem_SdNL] at hps
  rcases Option.map_eq_some'.mp hps with ⟨ps2, hps2, rfl⟩
  refine ⟨'\n' :: expandPieces ps2 (Sd ++ mid ++ Ed), ?_⟩
  rw [expandPieces_append, expandPieces_lits]
  simp [List.append_assoc]

-- ==== occurrences inside composite strings ====

theorem leads_head {pat : List Char} {x : Char} {s : List Char}
    (h : leadsList pat (x :: s) = true) (hp : pat ≠ []) : pat.head? = some x := by
  rcases (leadsList_iff_append pat (x :: s)).mp h with ⟨t, ht⟩
  cases pat with
  | nil => exact absurd rfl hp
  | cons c p =>
    rw [List.cons_append] at ht
    injection ht with h1 h2
    rw [h1]
    rfl

theorem occursAt_confined {pat A X : List Char} {i : Nat}
    (h : occursAt pat (A ++ X) i) (hle : i + pat.length ≤ A.length) :
    occursAt pat A i := by
  rw [occursAt] at h ⊢
  rw [List.drop_append_of_le_length (by omega)] at h
  exact leadsList_append_left h (by rw [List.length_drop]; omega)

theorem occursAt_extend {pat A : List Char} (Y : List Char) {i : Nat}
    (h : occursAt pat A i) : occursAt pat (A ++ Y) i := by
  rw [occursAt] at h ⊢
  by_cases hi : i ≤ A.length
  · rw [List.drop_append_of_le_length hi]
    exact leadsList_of_append Y h
  · push_neg at hi
    have h2 : A.drop i = [] := List.drop_eq_nil_of_le (by omega)
    rw [h2] at h
    have h3 : pat = [] := by
      cases pat with
      | nil => rfl
      | cons c p => simp [leadsList] at h
    subst h3
    rfl

theorem SegIn_refl (l : List Char) : SegIn l l := ⟨[], [], by simp⟩

theorem SegIn_trans {a b c : List Char} (h1 : SegIn a b) (h2 : SegIn b c) : SegIn a c := by
  obtain ⟨u1, w1, rfl⟩ := h1
  obtain ⟨u2, w2, rfl⟩ := h2
  exact ⟨u2 ++ u1, w1 ++ w2, by simp [List.append_assoc]⟩

theorem SegIn_trimLeft (l : List Char) : SegIn (pyTrimLeftL l) l :=
  ⟨l.takeWhile isPySpace, [], by
    rw [List.append_nil]
    exact trimLeft_decomp l⟩

theorem SegIn_trimRight (l : List Char) : SegIn (pyTrimRightL l) l :=
  ⟨[], (l.reverse.takeWhile isPySpace).reverse, by
    rw [List.nil_append]
    exact trimRight_decomp l⟩

theorem SegIn_trim (l : List Char) : SegIn (pyTrimL l) l :=
  SegIn_trans (SegIn_trimLeft (pyTrimRightL l)) (SegIn_trimRight l)

theorem occursAt_of_SegIn {pat l s : List Char} {k : Nat}
    (hseg : SegIn l s) (h : occursAt pat l k) :
    ∃ u w, s = u ++ l ++ w ∧ occursAt pat s (u.length + k) := by
  obtain ⟨u, w, rfl⟩ := hseg
  refine ⟨u, w, rfl, ?_⟩
  rw [List.append_assoc]
  exact occursAt_shift (occursAt_extend w h)

theorem joinNL_SegIn_mem {l : List Char} {L : List (List Char)} (h : l ∈ L) :
    SegIn l (joinNL L) := by
  induction L with
  | nil => simp at h
  | cons x M ih =>
    rcases List.mem_cons.mp h with rfl | h
    · by_cases hM : M = []
      · subst hM
        exact SegIn_refl l
      · rw [joinNL_cons_ne l M hM]
        exact ⟨[], '\n' :: joinNL M, by simp⟩
    · have hM : M ≠ [] := List.ne_nil_of_mem h
      rw [joinNL_cons_ne x M hM]
      obtain ⟨u, w, hw⟩ := ih h
      exact ⟨x ++ '\n' :: u, w, by rw [hw]; simp [List.append_assoc]⟩

theorem linesAux_ne_nil (s acc : List Char) : linesAux s acc ≠ [] := by
  induction s generalizing acc with
  | nil => simp [linesAux]
  | cons c rest ih =>
    rw [linesAux]
    by_cases hc : c = '\n'
    · rw [if_pos hc]
      simp
    · rw [if_neg hc]
      exact ih _

theorem joinNL_linesAux (s : List Char) :
    ∀ acc, joinNL (linesAux s acc) = acc.reverse ++ s := by
  induction s with
  | nil =>
    intro acc
    rw [linesAux]
    show acc.reverse = acc.reverse ++ []
    simp
  | cons c rest ih =>
    intro acc
    rw [linesAux]
    by_cases hc : c = '\n'
    · rw [if_pos hc]
      rw [joinNL_cons_ne _ _ (linesAux_ne_nil rest []), ih []]
      rw [hc]
      simp
    · rw [if_neg hc, ih (c :: acc)]
      simp

theorem splitRaw_join (s : List Char) : joinNL (splitRawL s) = s := by
  rw [splitRawL, joinNL_linesAux s []]
  rfl

theorem SegIn_splitRaw {l s : List Char} (h : l ∈ splitRawL s) : SegIn l s := by
  have h2 := joinNL_SegIn_mem h
  rw [splitRaw_join] at h2
  exact h2

theorem SegIn_pySplitlines {l s : List Char} (h : l ∈ pySplitlinesL s) : SegIn l s := by
  rw [pySplitlinesL] at h
  by_cases h1 : s = []
  · rw [if_pos h1] at h
    simp at h
  · rw [if_neg h1] at h
    by_cases h2 : s.getLast? = some '\n'
    · rw [if_pos h2] at h
      exact SegIn_splitRaw ((List.dropLast_sublist _).mem h)
    · rw [if_neg h2] at h
      exact SegIn_splitRaw h

theorem occursAt_joinNL {pat : List Char} (hpat : pat ≠ []) (hnl : '\n' ∉ pat) :
    ∀ (L : List (List Char)) (i : Nat), occursAt pat (joinNL L) i →
      ∃ l ∈ L, ∃ k, occursAt pat l k := by
  intro L
  induction L with
  | nil =>
    intro i h
    exfalso
    have h2 := leadsList_length_le h
    have h3 : 0 < pat.length := List.length_pos.mpr hpat
    simp only [joinNL, List.drop_nil, List.length_nil] at h2
    omega
  | cons x M ih =>
    intro i h
    by_cases hM : M = []
    · subst hM
      exact ⟨x, List.mem_cons_self _ _, i, h⟩
    · rw [joinNL_cons_ne x M hM] at h
      rcases occursAt_append_elim hpat h with ⟨h1, h2⟩ | ⟨h1, h2⟩ | ⟨h1, h2, c, hc1, hc2⟩
      · exact ⟨x, List.mem_cons_self _ _, i, h2⟩
      · cases hk : i - x.length with
        | zero =>
          rw [hk] at h2
          have h3 : leadsList pat ('\n' :: joinNL M) = true := h2
          have h4 := leads_head h3 hpat
          exfalso
          apply hnl
          cases pat with
          | nil => exact absurd rfl hpat
          | cons d p =>
            simp only [List.head?_cons, Option.some_inj] at h4
            rw [← h4]
            exact List.mem_cons_self _ _
        | succ m =>
          rw [hk] at h2
          have h4 : occursAt pat (joinNL M) m := h2
          obtain ⟨l, hl, k, hlk⟩ := ih m h4
          exact ⟨l, List.mem_cons_of_mem _ hl, k, hlk⟩
      · exfalso
        simp only [List.head?_cons, Option.some_inj] at hc1
        rw [← hc1] at hc2
        exact hnl hc2

theorem leads_of_longer {p q s : List Char} (h : leadsList (p ++ q) s = true) :
    leadsList p s = true := by
  rcases (leadsList_iff_append _ _).mp h with ⟨t, ht⟩
  exact (leadsList_iff_append _ _).mpr ⟨q ++ t, by rw [ht, List.append_assoc]⟩

theorem occursAt_cons_pat {c : Char} {p s : List Char} {j : Nat}
    (h : occursAt (c :: p) s j) : occursAt p s (j + 1) := by
  rw [occursAt] at h ⊢
  rcases (leadsList_iff_append _ _).mp h with ⟨t, ht⟩
  have h2 : s.drop (j + 1) = p ++ t := by
    have h3 : s.drop (j + 1) = (s.drop j).drop 1 := by
      rw [List.drop_drop, Nat.add_comm]
    rw [h3, ht]
    simp
  rw [h2]
  exact (leadsList_iff_append _ _).mpr ⟨t, rfl⟩

theorem occursAt_nil {pat : List Char} (hp : pat ≠ []) (i : Nat) :
    ¬ occursAt pat [] i := by
  intro h
  have h2 := leadsList_length_le h
  rw [List.drop_nil] at h2
  simp only [List.length_nil, Nat.le_zero, List.length_eq_zero] at h2
  exact hp h2

theorem occursAt_nl_singleton {pat : List Char} (hpat : pat ≠ []) (hnlp : '\n' ∉ pat) :
    ∀ j, ¬ occursAt pat ['\n'] j := by
  intro j h
  cases j with
  | zero =>
    have h3 : leadsList pat ('\n' :: []) = true := h
    have h4 := leads_head h3 hpat
    apply hnlp
    cases pat with
    | nil => exact absurd rfl hpat
    | cons d p =>
      simp only [List.head?_cons, Option.some_inj] at h4
      rw [← h4]
      exact List.mem_cons_self _ _
  | succ m =>
    have h3 : occursAt pat ([] : List Char) m := h
    exact occursAt_nil hpat m h3

theorem occursAt_single_iff {c : Char} {s : List Char} :
    (∃ i, occursAt [c] s i) ↔ c ∈ s := by
  constructor
  · rintro ⟨i, hi⟩
    rcases (leadsList_iff_append _ _).mp hi with ⟨t, ht⟩
    have h2 : c ∈ s.drop i := by
      rw [ht]
      simp
    exact List.mem_of_mem_drop h2
  · intro h
    rcases List.append_of_mem h with ⟨u, w, rfl⟩
    refine ⟨u.length, ?_⟩
    rw [occursAt]
    have h2 : (u ++ c :: w).drop u.length = c :: w := List.drop_left u _
    rw [h2]
    exact (leadsList_iff_append _ _).mpr ⟨w, rfl⟩

theorem pyInL_single {c : Char} {s : List Char} : pyInL [c] s = true ↔ c ∈ s := by
  rw [pyInL_iff (by simp), occursAt_single_iff]

theorem keptLines_origin (cutoff : PyDate) (banner : List Char) :
    ∀ (ls ks : List (List Char)), keptLinesL cutoff banner ls = some ks →
      ∀ l ∈ ks, ∃ raw ∈ ls, l = pyTrimRightL raw := by
  intro ls
  induction ls with
  | nil =>
    intro ks h l hl
    rw [keptLinesL] at h
    simp only [Option.some_inj] at h
    rw [← h] at hl
    simp at hl
  | cons raw ls0 ih =>
    intro ks h l hl
    rw [keptLinesL] at h
    split at h
    · obtain ⟨r, hr, hre⟩ := ih ks h l hl
      exact ⟨r, List.mem_cons_of_mem _ hr, hre⟩
    · split at h
      · split at h
        · rcases Option.map_eq_some'.mp h with ⟨ks0, hks0, rfl⟩
          rcases List.mem_cons.mp hl with rfl | hl
          · exact ⟨raw, List.mem_cons_self _ _, rfl⟩
          · obtain ⟨r, hr, hre⟩ := ih ks0 hks0 l hl
            exact ⟨r, List.mem_cons_of_mem _ hr, hre⟩
        · obtain ⟨r, hr, hre⟩ := ih ks h l hl
          exact ⟨r, List.mem_cons_of_mem _ hr, hre⟩
      · split at h
        · exact absurd h (by simp)
        · split at h
          · rcases Option.map_eq_some'.mp h with ⟨ks0, hks0, rfl⟩
            rcases List.mem_cons.mp hl with rfl | hl
            · exact ⟨raw, List.mem_cons_self _ _, rfl⟩
            · obtain ⟨r, hr, hre⟩ := ih ks0 hks0 l hl
              exact ⟨r, List.mem_cons_of_mem _ hr, hre⟩
          · obtain ⟨r, hr, hre⟩ := ih ks h l hl
            exact ⟨r, List.mem_cons_of_mem _ hr, hre⟩

theorem buildL_occ (pat : List Char) (hpat : pat ≠ []) (hnlp : '\n' ∉ pat)
    (hhdr : pyInL pat headerL = false)
    (E b e : List Char) (t : PyDate) (out : List Char)
    (hb : pyInL pat b = false) (he : pyInL pat e = false)
    (h : buildL E b e t = some out)
    (i : Nat) (hocc : occursAt pat out i) :
    pyInL pat E = true := by
  unfold buildL at h
  split at h
  · exact absurd h (by simp)
  · rename_i cutoff hcut
    split at h
    · exact absurd h (by simp)
    · rename_i kept0 hkept
      simp only [Option.some_inj] at h
      rw [← h] at hocc
      -- an occurrence in the stripped output lies in the pre-strip text
      obtain ⟨u1, w1, he1, hocc1⟩ := occursAt_of_SegIn (SegIn_trim _) hocc
      -- the trailing newline cannot carry the pattern
      rcases occursAt_append_elim hpat hocc1 with ⟨h1, h2⟩ | ⟨h1, h2⟩ | ⟨h1, h2, c, hc1, hc2⟩
      · -- inside the stripped join of the lines
        obtain ⟨u2, w2, he2, hocc2⟩ := occursAt_of_SegIn (SegIn_trim _) h2
        obtain ⟨l, hl, k, hk⟩ := occursAt_joinNL hpat hnlp _ _ hocc2
        simp only [List.cons_append, List.nil_append, List.mem_cons] at hl
        rcases hl with rfl | rfl | rfl | rfl | hl
        · exact absurd ((pyInL_iff hpat).mpr ⟨k, hk⟩) (by rw [hb]; simp)
        · exact absurd hk (occursAt_nil hpat k)
        · exact absurd ((pyInL_iff hpat).mpr ⟨k, hk⟩) (by rw [hhdr]; simp)
        · exact absurd ((pyInL_iff hpat).mpr ⟨k, hk⟩) (by rw [he]; simp)
        · rw [List.mem_filter] at hl
          obtain ⟨hl, -⟩ := hl
          rw [List.mem_filter] at hl
          obtain ⟨hl, -⟩ := hl
          obtain ⟨raw, hraw, rfl⟩ := keptLines_origin cutoff b _ kept0 hkept l hl
          obtain ⟨u3, w3, he3, hocc3⟩ := occursAt_of_SegIn
            (SegIn_trans (SegIn_trimRight raw) (SegIn_pySplitlines hraw)) hk
          exact (pyInL_iff hpat).mpr ⟨_, hocc3⟩
      · -- inside the appended newline: impossible
        exact absurd h2 (occursAt_nl_singleton hpat hnlp _)
      · simp only [List.head?_cons, Option.some_inj] at hc1
        rw [← hc1] at hc2
        exact absurd hc2 hnlp

theorem parseTemplate_litfree (a : List Char) (h : '\\' ∉ a) :
    parseTemplate a = some (a.map TmplPiece.lit) := by
  have h2 := parseTemplate_append_litfree a [] h
  rw [List.append_nil] at h2
  have h3 : parseTemplate [] = some [] := rfl
  rw [h2, h3]
  simp

theorem occ_in_canonical {pat : List Char} (hpat : pat ≠ []) (hnl : '\n' ∉ pat)
    {pre B post : List Char}
    (hB : ∀ k, ¬ occursAt pat B k)
    {i : Nat}
    (h : occursAt pat ((pre ++ Sd) ++ ('\n' :: (B ++ ('\n' :: (Ed ++ post))))) i) :
    (i + pat.length ≤ (pre ++ Sd).length ∧ occursAt pat (pre ++ Sd) i) ∨
    (∃ m, occursAt pat (Ed ++ post) m ∧
      i = (pre ++ Sd).length + 1 + B.length + 1 + m) := by
  have hmemhead : ∀ s : List Char, leadsList pat ('\n' :: s) = true → False := by
    intro s hl
    have h4 := leads_head hl hpat
    apply hnl
    cases pat with
    | nil => exact absurd rfl hpat
    | cons d p =>
      simp only [List.head?_cons, Option.some_inj] at h4
      rw [← h4]
      exact List.mem_cons_self _ _
  rcases occursAt_append_elim hpat h with ⟨h1, h2⟩ | ⟨h1, h2⟩ | ⟨h1, h2, c, hc1, hc2⟩
  · exact Or.inl ⟨h1, h2⟩
  · cases hk : i - (pre ++ Sd).length with
    | zero =>
      rw [hk] at h2
      have h3 : leadsList pat ('\n' :: (B ++ ('\n' :: (Ed ++ post)))) = true := h2
      exact absurd h3 (fun hx => hmemhead _ hx)
    | succ m =>
      rw [hk] at h2
      have h3 : occursAt pat (B ++ ('\n' :: (Ed ++ post))) m := h2
      rcases occursAt_append_elim hpat h3 with ⟨h4, h5⟩ | ⟨h4, h5⟩ | ⟨h4, h5, c, hc1, hc2⟩
      · exact absurd h5 (hB m)
      · cases hk2 : m - B.length with
        | zero =>
          rw [hk2] at h5
          have h6 : leadsList pat ('\n' :: (Ed ++ post)) = true := h5
          exact absurd h6 (fun hx => hmemhead _ hx)
        | succ n =>
          rw [hk2] at h5
          have h6 : occursAt pat (Ed ++ post) n := h5
          exact Or.inr ⟨n, h6, by omega⟩
      · simp only [List.head?_cons, Option.some_inj] at hc1
        rw [← hc1] at hc2
        exact absurd hc2 hnl
  · simp only [List.head?_cons, Option.some_inj] at hc1
    rw [← hc1] at hc2
    exact absurd hc2 hnl

theorem extract_blockL_canonical (pre M post : List Char)
    (hS : ∀ i, occursAt Sd
      (pre ++ (Sd ++ ('\n' :: (M ++ ('\n' :: (Ed ++ post)))))) i → i = pre.length)
    (hE : ∀ j, occursAt Ed
      (pre ++ (Sd ++ ('\n' :: (M ++ ('\n' :: (Ed ++ post)))))) j →
      j = pre.length + Sd.length + M.length + 2) :
    extract_blockL (pre ++ (Sd ++ ('\n' :: (M ++ ('\n' :: (Ed ++ post)))))) =
      some (pyTrimL M) := by
  have hg1 : pre ++ (Sd ++ ('\n' :: (M ++ ('\n' :: (Ed ++ post))))) =
      (pre ++ (Sd ++ ['\n'])) ++ (M ++ ('\n' :: (Ed ++ post))) := by
    simp [List.append_assoc]
  have hg2 : pre ++ (Sd ++ ('\n' :: (M ++ ('\n' :: (Ed ++ post))))) =
      (pre ++ (Sd ++ ('\n' :: (M ++ ['\n'])))) ++ (Ed ++ post) := by
    simp [List.append_assoc]
  have hin1 : pyInL Sd (pre ++ (Sd ++ ('\n' :: (M ++ ('\n' :: (Ed ++ post)))))) = true := by
    refine (pyInL_iff Sd_ne_nil).mpr ⟨pre.length, ?_⟩
    rw [occursAt, List.drop_left]
    exact (leadsList_iff_append Sd _).mpr ⟨_, rfl⟩
  have hin2 : pyInL Ed (pre ++ (Sd ++ ('\n' :: (M ++ ('\n' :: (Ed ++ post)))))) = true := by
    refine (pyInL_iff Ed_ne_nil).mpr ⟨(pre ++ (Sd ++ ('\n' :: (M ++ ['\n'])))).length, ?_⟩
    rw [occursAt, hg2, List.drop_left]
    exact (leadsList_iff_append Ed _).mpr ⟨_, rfl⟩
  have hfind1 : findOcc (Sd ++ ['\n'])
      (pre ++ (Sd ++ ('\n' :: (M ++ ('\n' :: (Ed ++ post)))))) = some pre.length := by
    apply findOcc_eq_some_of (by simp)
    · rw [occursAt, List.drop_left]
      exact (leadsList_iff_append _ _).mpr ⟨M ++ ('\n' :: (Ed ++ post)), by simp⟩
    · intro j hj hocc
      have hocc2 : occursAt Sd (pre ++ (Sd ++ ('\n' :: (M ++ ('\n' :: (Ed ++ post)))))) j :=
        leads_of_longer hocc
      exact absurd (hS j hocc2) (by omega)
  have hdrop : (pre ++ (Sd ++ ('\n' :: (M ++ ('\n' :: (Ed ++ post)))))).drop
      (pre.length + (Sd ++ ['\n']).length) = M ++ ('\n' :: (Ed ++ post)) := by
    rw [hg1]
    have hl : (pre ++ (Sd ++ ['\n'])).length = pre.length + (Sd ++ ['\n']).length := by
      simp
    rw [← hl, List.drop_left]
  have hfind2 : findLastOcc ('\n' :: Ed) (M ++ ('\n' :: (Ed ++ post))) = some M.length := by
    apply findLastOcc_eq_some_of (by simp)
    · rw [occursAt, List.drop_left]
      exact (leadsList_iff_append _ _).mpr ⟨post, by simp⟩
    · intro j hj
      have h2 : occursAt Ed (M ++ ('\n' :: (Ed ++ post))) (j + 1) := occursAt_cons_pat hj
      have h3 : occursAt Ed (pre ++ (Sd ++ ('\n' :: (M ++ ('\n' :: (Ed ++ post)))))) (
          (pre ++ (Sd ++ ['\n'])).length + (j + 1)) := by
        rw [hg1]
        exact occursAt_shift h2
      have h4 := hE _ h3
      have h5 : (pre ++ (Sd ++ ['\n'])).length = pre.length + Sd.length + 1 := by
        simp only [List.length_append, List.length_cons, List.length_nil]
        omega
      omega
  rw [extract_blockL, if_pos (show (pyInL Sd _ && pyInL Ed _) = true by rw [hin1, hin2]; rfl)]
  rw [hfind1]
  simp only []
  rw [hdrop, hfind2]
  simp only []
  rw [List.take_left]

theorem occursAt_full_bound {pat s : List Char} {i : Nat} (hp : pat ≠ [])
    (h : occursAt pat s i) : i + pat.length ≤ s.length := by
  have h2 := leadsList_length_le h
  rw [List.length_drop] at h2
  have h3 : 0 < pat.length := List.length_pos.mpr hp
  omega

theorem pyInL_single_false {c : Char} {s : List Char} (h : c ∉ s) :
    pyInL [c] s = false := by
  cases hq : pyInL [c] s with
  | false => rfl
  | true => exact absurd (pyInL_single.mp hq) h

theorem mem_of_trim {c : Char} {l : List Char} (h : c ∈ pyTrimL l) : c ∈ l :=
  ((sublist_trimLeft (pyTrimRightL l)).trans (sublist_trimRight l)).mem h

/-- C1 (amended): running the merge-and-update pipeline a second time on its
own output, with the same banner line, entry line and date, returns the same
document byte for byte and reports `changed = false` — provided the original
document holds the marker-delimited region in its canonical layout with each
marker occurring exactly once, the banner and entry are single lines free of
marker text and backslashes, the entry line is right-stripped and parses as a
dated entry at or after the retention cutoff, and the region content is free
of backslashes. -/
theorem C1_pipeline_idem (pre inner post : List Char) (b e : String) (t : PyDate)
    (u1 : String) (c1 : Bool)
    (h1 : countOccur Sd (pre ++ Sd ++ ('\n' :: (inner ++ ['\n'])) ++ Ed ++ post) = 1)
    (h2 : countOccur Ed (pre ++ Sd ++ ('\n' :: (inner ++ ['\n'])) ++ Ed ++ post) = 1)
    (hb1 : '\n' ∉ b.data) (hb2 : '\\' ∉ b.data)
    (hb3 : pyInL Sd b.data = false) (hb4 : pyInL Ed b.data = false)
    (he1 : pyTrimRightL e.data = e.data) (he2 : '\n' ∉ e.data) (he3 : '\\' ∉ e.data)
    (he4 : pyInL Sd e.data = false) (he5 : pyInL Ed e.data = false)
    (ds ts txt : List Char) (hee : LINE_REm e.data = some (ds, ts, txt))
    (d : PyDate) (hiso : fromisoformatL ds = some d)
    (cutoff : PyDate) (hcut : subDays t (KEEP_DAYS - 1) = some cutoff)
    (hdate : dateLe cutoff d)
    (hin : '\\' ∉ inner)
    (hrun : pipelineOnce ⟨pre ++ Sd ++ ('\n' :: (inner ++ ['\n'])) ++ Ed ++ post⟩ b e t
      = some (u1, c1)) :
    pipelineOnce u1 b e t = some (u1, false) := by
  set docL := pre ++ Sd ++ ('\n' :: (inner ++ ['\n'])) ++ Ed ++ post with hdoc
  -- groupings of the document
  have hgR : docL = pre ++ (Sd ++ ('\n' :: (inner ++ ('\n' :: (Ed ++ post))))) := by
    rw [hdoc]
    simp [List.append_assoc]
  have hg2 : docL = (pre ++ Sd ++ ('\n' :: (inner ++ ['\n']))) ++ (Ed ++ post) := by
    rw [hdoc]
    simp [List.append_assoc]
  have hg3 : docL = (pre ++ Sd ++ ['\n']) ++ (inner ++ ('\n' :: (Ed ++ post))) := by
    rw [hdoc]
    simp [List.append_assoc]
  have hg4 : docL = (pre ++ Sd) ++ ('\n' :: (inner ++ ('\n' :: (Ed ++ post)))) := by
    rw [hdoc]
    simp [List.append_assoc]
  -- uniqueness of the marker positions in the original document
  have hoccS : occursAt Sd docL pre.length := by
    rw [occursAt, hgR, List.drop_left]
    exact (leadsList_iff_append Sd _).mpr ⟨_, rfl⟩
  have hS : ∀ i, occursAt Sd docL i → i = pre.length :=
    fun i hi => countOccur_unique Sd_ne_nil h1 hi hoccS
  have hoccE : occursAt Ed docL (pre ++ Sd ++ ('\n' :: (inner ++ ['\n']))).length := by
    rw [occursAt, hg2, List.drop_left]
    exact (leadsList_iff_append Ed _).mpr ⟨_, rfl⟩
  have hlenA : (pre ++ Sd ++ ('\n' :: (inner ++ ['\n']))).length =
      pre.length + Sd.length + inner.length + 2 := by
    simp only [List.length_append, List.length_cons, List.length_nil]
    omega
  have hE : ∀ j, occursAt Ed docL j → j = pre.length + Sd.length + inner.length + 2 := by
    intro j hj
    have h4 := countOccur_unique Ed_ne_nil h2 hj hoccE
    omega
  have hSdpos : 0 < Sd.length := by decide
  have hpost : ∀ k, ¬ occursAt Sd post k := by
    intro k hk
    have h3 : occursAt Sd docL
        ((pre ++ Sd ++ ('\n' :: (inner ++ ['\n'])) ++ Ed).length + k) := by
      rw [hdoc]
      exact occursAt_shift hk
    have h4 := hS _ h3
    simp only [List.length_append, List.length_cons, List.length_nil] at h4
    omega
  -- the extraction of the existing block
  have hex : extract_blockL docL = some (pyTrimL inner) := by
    have hS' : ∀ i, occursAt Sd
        (pre ++ (Sd ++ ('\n' :: (inner ++ ('\n' :: (Ed ++ post)))))) i → i = pre.length :=
      fun i hi => hS i (by rw [hgR]; exact hi)
    have hE' : ∀ j, occursAt Ed
        (pre ++ (Sd ++ ('\n' :: (inner ++ ('\n' :: (Ed ++ post)))))) j →
        j = pre.length + Sd.length + inner.length + 2 :=
      fun j hj => hE j (by rw [hgR]; exact hj)
    rw [hgR]
    exact extract_blockL_canonical pre inner post hS' hE'
  have hexS : extract_block ⟨docL⟩ = some ⟨pyTrimL inner⟩ := by
    rw [extract_block]
    show (extract_blockL docL).map _ = _
    rw [hex]
    rfl
  -- destructure the first run
  unfold pipelineOnce at hrun
  simp only [hexS] at hrun
  cases hbuild : build_new_block ⟨pyTrimL inner⟩ b e t with
  | none =>
    rw [hbuild] at hrun
    exact absurd hrun (by simp)
  | some B1 =>
    simp only [hbuild] at hrun
    cases hupd : update_region ⟨docL⟩ B1 with
    | none =>
      rw [hupd] at hrun
      exact absurd hrun (by simp)
    | some u1' =>
      simp only [hupd, Option.some_inj, Prod.mk.injEq] at hrun
      obtain ⟨hu1, hc1⟩ := hrun
      -- facts about the built block
      have hbuildL : buildL (pyTrimL inner) b.data e.data t = some B1.data :=
        build_new_block_some_iff.mp hbuild
      obtain ⟨cutoff2, rest, hcut2, hinv, hout, hlines⟩ :=
        lines_of_build _ _ _ _ _ hb1 he2 hbuildL
      have hB1trim : pyTrimL B1.data = B1.data := by
        rw [hout, trim_idem]
      have hB1S : ∀ k, ¬ occursAt Sd B1.data k := by
        intro k hk
        have h5 := buildL_occ Sd Sd_ne_nil (by decide) (by decide)
          _ _ _ _ _ hb3 he4 hbuildL k hk
        obtain ⟨k2, hk2⟩ := (pyInL_iff Sd_ne_nil).mp h5
        obtain ⟨u, w, hw, hocc⟩ := occursAt_of_SegIn (SegIn_trim inner) hk2
        have h6 : occursAt Sd docL ((pre ++ Sd ++ ['\n']).length + (u.length + k2)) := by
          rw [hg3]
          exact occursAt_shift (occursAt_extend _ hocc)
        have h7 := hS _ h6
        simp only [List.length_append, List.length_cons, List.length_nil] at h7
        omega
      have hB1E : ∀ k, ¬ occursAt Ed B1.data k := by
        intro k hk
        have h5 := buildL_occ Ed Ed_ne_nil (by decide) (by decide)
          _ _ _ _ _ hb4 he5 hbuildL k hk
        obtain ⟨k2, hk2⟩ := (pyInL_iff Ed_ne_nil).mp h5
        obtain ⟨u, w, hw, hocc⟩ := occursAt_of_SegIn (SegIn_trim inner) hk2
        have hb6 := occursAt_full_bound Ed_ne_nil hocc
        have h6 : occursAt Ed docL ((pre ++ Sd ++ ['\n']).length + (u.length + k2)) := by
          rw [hg3]
          exact occursAt_shift (occursAt_extend _ hocc)
        have h7 := hE _ h6
        have h8 : 0 < Ed.length := by decide
        simp only [List.length_append, List.length_cons, List.length_nil] at h7
        omega
      have hB1bs : '\\' ∉ B1.data := by
        intro hbs
        obtain ⟨k, hk⟩ := occursAt_single_iff.mpr hbs
        have h5 := buildL_occ ['\\'] (by simp) (by decide) (by decide)
          _ _ _ _ _ (pyInL_single_false hb2) (pyInL_single_false he3) hbuildL k hk
        exact hin (mem_of_trim (pyInL_single.mp h5))
      -- the replacement template is pure literal text
      have hrep : (START ++ "\n" ++ B1 ++ "\n" ++ END).data =
          Sd ++ ('\n' :: (B1.data ++ ('\n' :: Ed))) := by
        simp only [String.data_append]
        show Sd ++ "\n".data ++ B1.data ++ "\n".data ++ Ed = _
        simp [List.append_assoc]
      have hrepbs : '\\' ∉ (START ++ "\n" ++ B1 ++ "\n" ++ END).data := by
        rw [hrep]
        intro hm
        simp only [List.mem_append, List.mem_cons] at hm
        rcases hm with hm | hm | hm | hm | hm
        · exact absurd hm (by decide)
        · exact absurd hm (by decide)
        · exact hB1bs hm
        · exact absurd hm (by decide)
        · exact absurd hm (by decide)
      -- the first update gives the canonical document around the new block
      unfold update_region at hupd
      simp only [] at hupd
      rw [parseTemplate_litfree _ hrepbs] at hupd
      simp only [Option.map_some', Option.some_inj] at hupd
      have hu1data : u1'.data =
          subAllAux ((START ++ "\n" ++ B1 ++ "\n" ++ END).data.map TmplPiece.lit) docL :=
        (congrArg String.data hupd).symm
      have hSf : ∀ i, occursAt Sd
          (pre ++ Sd ++ ('\n' :: (inner ++ ['\n'])) ++ Ed ++ post) i → i = pre.length :=
        fun i hi => hS i (by rw [hdoc]; exact hi)
      have hEf : ∀ j, occursAt Ed
          (pre ++ Sd ++ ('\n' :: (inner ++ ['\n'])) ++ Ed ++ post) j →
          j = pre.length + Sd.length + ('\n' :: (inner ++ ['\n'])).length := by
        intro j hj
        have h9 := hE j (by rw [hdoc]; exact hj)
        simp only [List.length_cons, List.length_append, List.length_nil]
        omega
      have hu1form : u1'.data =
          pre ++ (Sd ++ ('\n' :: (B1.data ++ ('\n' :: Ed)))) ++ post := by
        rw [hu1data]
        have hfr := subAllAux_frame
          ((START ++ "\n" ++ B1 ++ "\n" ++ END).data.map TmplPiece.lit)
          pre ('\n' :: (inner ++ ['\n'])) post hSf hEf hpost
        rw [hdoc]
        rw [hfr, expandPieces_lits, hrep]
      have hu1R : u1'.data =
          (pre ++ Sd) ++ ('\n' :: (B1.data ++ ('\n' :: (Ed ++ post)))) := by
        rw [hu1form]
        simp [List.append_assoc]
      -- marker uniqueness in the updated document
      have hS2 : ∀ i, occursAt Sd u1'.data i → i = pre.length := by
        intro i hi
        rw [hu1R] at hi
        rcases occ_in_canonical Sd_ne_nil (by decide) hB1S hi with
          ⟨hle, hocc⟩ | ⟨m, hocc, heq⟩
        · exact hS i (by rw [hg4]; exact occursAt_extend _ hocc)
        · exfalso
          have h6 : occursAt Sd docL
              ((pre ++ Sd ++ ('\n' :: (inner ++ ['\n']))).length + m) := by
            rw [hg2]
            exact occursAt_shift hocc
          have h7 := hS _ h6
          omega
      have hE2 : ∀ j, occursAt Ed u1'.data j →
          j = pre.length + Sd.length + B1.data.length + 2 := by
        intro j hj
        rw [hu1R] at hj
        rcases occ_in_canonical Ed_ne_nil (by decide) hB1E hj with
          ⟨hle, hocc⟩ | ⟨m, hocc, heq⟩
        · exfalso
          have h6 := hE j (by rw [hg4]; exact occursAt_extend _ hocc)
          simp only [List.length_append] at hle
          omega
        · have h6 : occursAt Ed docL
              ((pre ++ Sd ++ ('\n' :: (inner ++ ['\n']))).length + m) := by
            rw [hg2]
            exact occursAt_shift hocc
          have h7 := hE _ h6
          simp only [List.length_append] at heq
          omega
      -- extraction from the updated document returns the block unchanged
      have hex2 : extract_blockL u1'.data = some B1.data := by
        have hS2' : ∀ i, occursAt Sd
            (pre ++ (Sd ++ ('\n' :: (B1.data ++ ('\n' :: (Ed ++ post)))))) i →
            i = pre.length := by
          intro i hi
          apply hS2
          rw [hu1R]
          rw [← List.append_assoc] at hi
          exact hi
        have hE2' : ∀ j, occursAt Ed
            (pre ++ (Sd ++ ('\n' :: (B1.data ++ ('\n' :: (Ed ++ post)))))) j →
            j = pre.length + Sd.length + B1.data.length + 2 := by
          intro j hj
          apply hE2
          rw [hu1R]
          rw [← List.append_assoc] at hj
          exact hj
        have h9 : u1'.data = pre ++ (Sd ++ ('\n' :: (B1.data ++ ('\n' :: (Ed ++ post))))) := by
          rw [hu1R, List.append_assoc]
        rw [h9]
        rw [extract_blockL_canonical pre B1.data post hS2' hE2', hB1trim]
      have hexS2 : extract_block u1' = some B1 := by
        rw [extract_block, hex2]
        rfl
      -- the rebuilt block is identical
      have hbuild2 : build_new_block B1 b e t = some B1 :=
        build_new_block_some_iff.mpr
          (build_idem _ _ _ _ _ hb1 he2 he1 ds ts txt hee d hiso cutoff hcut hdate hbuildL)
      -- the second substitution leaves the document unchanged
      have hupd2 : update_region u1' B1 = some u1' := by
        unfold update_region
        simp only []
        rw [parseTemplate_litfree _ hrepbs]
        simp only [Option.map_some', Option.some_inj]
        have hu1L : u1'.data =
            pre ++ Sd ++ ('\n' :: (B1.data ++ ['\n'])) ++ Ed ++ post := by
          rw [hu1R]
          simp [List.append_assoc]
        have hS2f : ∀ i, occursAt Sd
            (pre ++ Sd ++ ('\n' :: (B1.data ++ ['\n'])) ++ Ed ++ post) i →
            i = pre.length :=
          fun i hi => hS2 i (by rw [hu1L]; exact hi)
        have hE2f : ∀ j, occursAt Ed
            (pre ++ Sd ++ ('\n' :: (B1.data ++ ['\n'])) ++ Ed ++ post) j →
            j = pre.length + Sd.length + ('\n' :: (B1.data ++ ['\n'])).length := by
          intro j hj
          have h9 := hE2 j (by rw [hu1L]; exact hj)
          simp only [List.length_cons, List.length_append, List.length_nil]
          omega
        have hsub : subAllAux
            ((START ++ "\n" ++ B1 ++ "\n" ++ END).data.map TmplPiece.lit) u1'.data =
            u1'.data := by
          rw [hu1L]
          rw [subAllAux_frame _ pre ('\n' :: (B1.data ++ ['\n'])) post hS2f hE2f hpost]
          rw [expandPieces_lits, hrep]
          simp [List.append_assoc]
        show (⟨subAllAux _ u1'.data⟩ : String) = u1'
        rw [hsub]
      -- assemble the second run
      rw [← hu1]
      unfold pipelineOnce
      simp only [hexS2, hbuild2, hupd2]
      have hne : (u1' != u1') = false := by
        simp [bne]
      rw [hne]
-- ==== the claims: classifier, renderer, markers, placeholder ====

/-- C6: the classifier is total: for every input string it returns one of
the seven defined themes, and when no keyword occurs (case-insensitively)
in the input it returns "clear". -/
theorem C6_classifier_total (s : String) :
    classify_weather s ∈ (["clear", "cloud", "rain", "wind", "fog", "snow", "thunder"] : List String) ∧
    ((∀ k ∈ weather_keywords, pyInL k.data (pyLowerL s.data) = false) → classify_weather s = "clear") := by
  constructor
  · simp only [classify_weather]
    split_ifs <;> simp
  · intro h
    simp only [weather_keywords, List.mem_cons, List.not_mem_nil, or_false,
      forall_eq_or_imp, forall_eq] at h
    obtain ⟨h1, h2, h3, h4, h5, h6, h7, h8, h9, h10, h11, h12, h13, h14⟩ := h
    simp [classify_weather, h1, h2, h3, h4, h5, h6, h7, h8, h9, h10, h11, h12, h13, h14]

theorem C6_classifier_total_witness : classify_weather "hello" = "clear" :=
  (C6_classifier_total "hello").2 (by decide)

/-- C7: the thunder/storm check takes priority: any input containing
(case-insensitively) a thunder/storm keyword classifies as "thunder", even
when a rain-family keyword is also present. -/
theorem C7_classifier_priority (s : String)
    (ht : pyInL "thunder".data (pyLowerL s.data) = true ∨
      pyInL "storm".data (pyLowerL s.data) = true)
    (hr : pyInL "rain".data (pyLowerL s.data) = true ∨
      pyInL "drizzle".data (pyLowerL s.data) = true ∨
      pyInL "shower".data (pyLowerL s.data) = true) :
    classify_weather s = "thunder" := by
  unfold classify_weather
  rcases ht with h | h <;> simp [h]

theorem C7_classifier_priority_witness : classify_weather "Thundershowers" = "thunder" :=
  C7_classifier_priority "Thundershowers" (Or.inl (by decide)) (Or.inr (Or.inr (by decide)))

/-- C10: for a theme outside the seven defined themes the renderer does
not fail: the background-gradient lookup and the overlay selection both
fall back to the cloud variants and the rendered banner equals the
cloud-themed one. -/
theorem C10_renderer_theme_fallback (theme title subtitle : String)
    (h : theme ∉ (["clear", "cloud", "rain", "wind", "fog", "snow", "thunder"] : List String)) :
    bg_get theme = bg_get "cloud" ∧ overlay_for theme = overlay_for "cloud" ∧
    write_weather_svg_content theme title subtitle =
      write_weather_svg_content "cloud" title subtitle := by
  simp only [List.mem_cons, List.not_mem_nil, or_false, not_or] at h
  obtain ⟨h1, h2, h3, h4, h5, h6, h7⟩ := h
  have hbg : bg_get theme = bg_get "cloud" := by
    rw [bg_get, bg_get]
    rw [if_neg h1, if_neg h2, if_neg h3, if_neg h4, if_neg h5, if_neg h6, if_neg h7]
    rw [if_neg (by decide), if_pos rfl]
  have hov : overlay_for theme = overlay_for "cloud" := by
    rw [overlay_for, overlay_for]
    rw [if_neg h3, if_neg h4, if_neg h5, if_neg h6, if_neg h7, if_neg h1]
    rw [if_neg (by decide), if_neg (by decide), if_neg (by decide), if_neg (by decide),
      if_neg (by decide), if_neg (by decide)]
  refine ⟨hbg, hov, ?_⟩
  rw [write_weather_svg_content, write_weather_svg_content, hbg, hov]

theorem C10_renderer_theme_fallback_witness :
    bg_get "banana" = bg_get "cloud" ∧ overlay_for "banana" = overlay_for "cloud" ∧
    write_weather_svg_content "banana" "t" "s" = write_weather_svg_content "cloud" "t" "s" :=
  C10_renderer_theme_fallback "banana" "t" "s" (by decide)

/-- C9: when the start marker or the end marker is absent from the
document, the run terminates with an error before any write: `update_readme`
returns `none`. -/
theorem C9_markers_required (fetched : Option String) (stamp : String) (d : PyDate) (r : String)
    (h : pyInL Sd r.data = false ∨ pyInL Ed r.data = false) :
    update_readme fetched stamp d r = none := by
  unfold update_readme extract_block extract_blockL
  rcases h with h | h <;> simp [h]

theorem C9_markers_required_witness :
    update_readme none "2026-02-24 09:00" ⟨2026, 2, 24⟩ "# my readme" = none :=
  C9_markers_required none "2026-02-24 09:00" ⟨2026, 2, 24⟩ "# my readme" (Or.inl (by decide))

/-- C8: when every weather provider fails, the entry text is the fixed
placeholder "⚠️ Weather fetch unavailable." rendered with the current
timestamp, the theme is "cloud", and the document update proceeds exactly
as it would with a fetched text equal to the placeholder. -/
theorem C8_provider_failure_placeholder (stamp : String) (d : PyDate) (r : String) :
    weather_entry_theme none stamp =
      ("⚠️ Weather fetch unavailable.",
       "- " ++ stamp ++ " — " ++ "⚠️ Weather fetch unavailable.", "cloud") ∧
    update_readme none stamp d r =
      update_readme (some "⚠️ Weather fetch unavailable.") stamp d r := by
  constructor
  · rfl
  · rfl

/-- C5: the merge output does not end with a newline — line 316's
`return out.strip()` strips the very newline line 315 appends, so the
spec's "exactly one trailing newline" is not what the code returns. -/
theorem C5_no_trailing_newline :
    build_new_block "" "B" "- 2026-02-24 09:00 UTC — Dublin: Clear, 8°C" ⟨2026, 2, 24⟩ =
      some "B\n\n### Dublin weather (last 10 days)\n- 2026-02-24 09:00 UTC — Dublin: Clear, 8°C" ∧
    "B\n\n### Dublin weather (last 10 days)\n- 2026-02-24 09:00 UTC — Dublin: Clear, 8°C".data.getLast?
      ≠ some '\n' := by
  constructor
  · decide
  · decide

set_option maxRecDepth 40000 in
/-- C1, counterexample to the claim as stated: with an entry line carrying
a trailing space, the second pipeline run on the first run's output inserts
the entry again (the stored line was right-stripped and no longer matches)
and reports a change. -/
theorem C1_counterexample :
    pipelineOnce "pre\n<!-- DUBLIN_WEATHER:START -->\n\n<!-- DUBLIN_WEATHER:END -->\npost"
        "B" "- 2026-02-24 09:00 UTC — x " ⟨2026, 2, 24⟩ =
      some ("pre\n<!-- DUBLIN_WEATHER:START -->\nB\n\n### Dublin weather (last 10 days)\n- 2026-02-24 09:00 UTC — x\n<!-- DUBLIN_WEATHER:END -->\npost", true) ∧
    pipelineOnce "pre\n<!-- DUBLIN_WEATHER:START -->\nB\n\n### Dublin weather (last 10 days)\n- 2026-02-24 09:00 UTC — x\n<!-- DUBLIN_WEATHER:END -->\npost"
        "B" "- 2026-02-24 09:00 UTC — x " ⟨2026, 2, 24⟩ =
      some ("pre\n<!-- DUBLIN_WEATHER:START -->\nB\n\n### Dublin weather (last 10 days)\n- 2026-02-24 09:00 UTC — x \n- 2026-02-24 09:00 UTC — x\n<!-- DUBLIN_WEATHER:END -->\npost", true) ∧
    ("pre\n<!-- DUBLIN_WEATHER:START -->\nB\n\n### Dublin weather (last 10 days)\n- 2026-02-24 09:00 UTC — x \n- 2026-02-24 09:00 UTC — x\n<!-- DUBLIN_WEATHER:END -->\npost" : String) ≠
      "pre\n<!-- DUBLIN_WEATHER:START -->\nB\n\n### Dublin weather (last 10 days)\n- 2026-02-24 09:00 UTC — x\n<!-- DUBLIN_WEATHER:END -->\npost" := by
  refine ⟨by decide, by decide, by decide⟩

/-- C2, counterexample to the claim as stated: an entry line dated 1990,
far before the cutoff of 2026-02-15, survives the merge because the new
entry line is appended without any date check. -/
theorem C2_counterexample :
    build_new_block "" "B" "- 1990-01-01 00:00 UTC — old" ⟨2026, 2, 24⟩ =
      some "B\n\n### Dublin weather (last 10 days)\n- 1990-01-01 00:00 UTC — old" ∧
    subDays ⟨2026, 2, 24⟩ (KEEP_DAYS - 1) = some ⟨2026, 2, 15⟩ ∧
    (pySplitlinesL "B\n\n### Dublin weather (last 10 days)\n- 1990-01-01 00:00 UTC — old".data).any
      (fun l =>
        match LINE_REm l with
        | some (ds, _, _) =>
          match fromisoformatL ds with
          | some dd => decide (¬ dateLe ⟨2026, 2, 15⟩ dd)
          | none => false
        | none => false) = true := by
  refine ⟨by decide, by decide, by decide⟩

/-- C3, counterexample to the claim as stated: with the banner line equal
to the entry line, merging twice leaves two occurrences of that line in the
block. -/
theorem C3_counterexample :
    build_new_block "" "X" "X" ⟨2026, 2, 24⟩ =
      some "X\n\n### Dublin weather (last 10 days)\nX" ∧
    build_new_block "X\n\n### Dublin weather (last 10 days)\nX" "X" "X" ⟨2026, 2, 24⟩ =
      some "X\n\n### Dublin weather (last 10 days)\nX" ∧
    (pySplitlinesL "X\n\n### Dublin weather (last 10 days)\nX".data).count "X".data = 2 := by
  refine ⟨by decide, by decide, by decide⟩

set_option maxRecDepth 100000 in
theorem C1_pipeline_idem_witness :
    pipelineOnce "# T\n<!-- DUBLIN_WEATHER:START -->\nBANNER\n\n### Dublin weather (last 10 days)\n- 2026-02-24 09:00 UTC — Dublin: Clear, 8°C\nold line\n<!-- DUBLIN_WEATHER:END -->\ntail"
        "BANNER" "- 2026-02-24 09:00 UTC — Dublin: Clear, 8°C" ⟨2026, 2, 24⟩ =
      some ("# T\n<!-- DUBLIN_WEATHER:START -->\nBANNER\n\n### Dublin weather (last 10 days)\n- 2026-02-24 09:00 UTC — Dublin: Clear, 8°C\nold line\n<!-- DUBLIN_WEATHER:END -->\ntail", false) :=
  C1_pipeline_idem ("# T\n").data ("old line").data ("\ntail").data
    "BANNER" "- 2026-02-24 09:00 UTC — Dublin: Clear, 8°C" ⟨2026, 2, 24⟩
    "# T\n<!-- DUBLIN_WEATHER:START -->\nBANNER\n\n### Dublin weather (last 10 days)\n- 2026-02-24 09:00 UTC — Dublin: Clear, 8°C\nold line\n<!-- DUBLIN_WEATHER:END -->\ntail"
    true
    (by decide) (by decide) (by decide) (by decide) (by decide) (by decide)
    (by decide) (by decide) (by decide) (by decide) (by decide)
    ("2026-02-24").data ("09:00").data ("Dublin: Clear, 8°C").data (by decide)
    ⟨2026, 2, 24⟩ (by decide) ⟨2026, 2, 15⟩ (by decide) (by decide) (by decide)
    (by decide)

theorem C4_marker_frame_witness :
    ∃ core, ("A\n<!-- DUBLIN_WEATHER:START -->\nNEW\n<!-- DUBLIN_WEATHER:END -->\nZ" : String).data =
      ("A\n").data ++ (Sd ++ core) ++ ("\nZ").data :=
  C4_marker_frame ("A\n").data ("\nx\n").data ("\nZ").data "NEW"
    "A\n<!-- DUBLIN_WEATHER:START -->\nNEW\n<!-- DUBLIN_WEATHER:END -->\nZ"
    (by decide) (by decide) (by decide)

theorem C2_retention_witness :
    (∃ cutoff, subDays ⟨2026, 2, 24⟩ (KEEP_DAYS - 1) = some cutoff ∧
      dateLe cutoff ⟨2026, 2, 24⟩) ∨
    pyTrimL ("- 2026-02-24 09:00 UTC — x").data =
      pyTrimL ("- 2026-02-24 09:00 UTC — x" : String).data ∨
    pyTrimL ("- 2026-02-24 09:00 UTC — x").data = pyTrimL ("B" : String).data :=
  C2_retention "" "B" "- 2026-02-24 09:00 UTC — x" ⟨2026, 2, 24⟩
    "B\n\n### Dublin weather (last 10 days)\n- 2026-02-24 09:00 UTC — x"
    (by decide) (by decide) (by decide)
    ("- 2026-02-24 09:00 UTC — x").data (by decide)
    ("2026-02-24").data ("09:00").data ("x").data (by decide)
    ⟨2026, 2, 24⟩ (by decide)

theorem C3_dedup_witness :
    (pySplitlinesL ("B\n\n### Dublin weather (last 10 days)\n- 2026-02-24 09:00 UTC — x").data).count
      ("- 2026-02-24 09:00 UTC — x").data = 1 :=
  C3_dedup ("B\n\n### Dublin weather (last 10 days)\n- 2026-02-24 09:00 UTC — x").data
    ("B").data ("- 2026-02-24 09:00 UTC — x").data ⟨2026, 2, 24⟩
    ("B\n\n### Dublin weather (last 10 days)\n- 2026-02-24 09:00 UTC — x").data
    (by decide) (by decide) (by decide) (by decide) (by decide) (by decide) (by decide)
